import Mathlib

/-!
Verification development for the BetterBlocker content-filtering engine.

JavaScript strings are modelled as lists of characters (`Str`); machine
integers are modelled as natural numbers with explicit reduction modulo
2^32 where JavaScript coerces to 32-bit integers; typed-array and
DataView reads are modelled with explicit bounds checks in an exception
monad (`JS`), mirroring the RangeError behaviour of the runtime.
-/

namespace BB

/-- JavaScript string, modelled as a list of UTF-16 code points. -/
abbrev Str := List Char

/-- Lift a Lean string literal into the model. -/
def S (s : String) : Str := s.data

/-- ASCII lowercasing of one character, as `String.prototype.toLowerCase`
acts on the ASCII range (all inputs of interest are ASCII). -/
def jsLowerChar (c : Char) : Char :=
  if 'A' ≤ c ∧ c ≤ 'Z' then Char.ofNat (c.toNat + 32) else c

/-- `s.toLowerCase()` on ASCII data. -/
def jsToLower (s : Str) : Str := s.map jsLowerChar

/-- `s.indexOf(c, start)`: index of the first occurrence of `c` at or
after `start`, or `none` (JavaScript returns -1). -/
def idxOfFrom (s : Str) (c : Char) (start : Nat) : Option Nat :=
  ((s.drop start).findIdx? (fun x => x = c)).map (fun i => start + i)

/-- `s.split(sep)` for a one-character separator: always returns a
non-empty list of separator-free pieces. -/
def splitOnChar (c : Char) : Str → List Str
  | [] => [[]]
  | x :: xs =>
    let r := splitOnChar c xs
    if x = c then [] :: r
    else
      match r with
      | h :: t => (x :: h) :: t
      | [] => [[x]]

/-- `parts.join(sep)` for a one-character separator. -/
def joinChar (c : Char) (l : List Str) : Str := (l.intersperse [c]).flatten

/-- 2^32, the modulus for JavaScript 32-bit integer coercions. -/
def M32 : Nat := 4294967296

/-- `Math.imul`: 32-bit integer multiplication (as an unsigned residue). -/
def imul (a b : Nat) : Nat := (a * b) % M32

/-- `(x << n) | (x >>> (32 - n))` on a 32-bit value: left rotation. -/
def rotl32 (x n : Nat) : Nat := ((x <<< n) % M32) ||| (x >>> (32 - n))

/-- Little-endian bytes of a 16-bit value. -/
def le16 (n : Nat) : List Nat := [n % 256, (n / 256) % 256]

/-- Little-endian bytes of a 32-bit value. -/
def le32 (n : Nat) : List Nat :=
  [n % 256, (n / 256) % 256, (n / 65536) % 256, (n / 16777216) % 256]

/-- Decimal rendering of a natural number, as JavaScript template
interpolation renders integers. -/
def natStr (n : Nat) : Str := (Nat.repr n).data

-- ===========================================================================
-- src/shared/hash.ts
-- ===========================================================================

/-- 64-bit composite hash as a (lo, hi) pair of 32-bit values. -/
structure Hash64 where
  lo : Nat
  hi : Nat
deriving DecidableEq, Repr

/-- The 4-byte-chunk loop of `murmur3_32`: consumes chunks of four bytes,
returns the running hash and the remaining (fewer than four) bytes. -/
def mm3Chunks (h : Nat) : List Nat → Nat × List Nat
  | b0 :: b1 :: b2 :: b3 :: rest =>
    let k := b0 ||| (b1 <<< 8) ||| (b2 <<< 16) ||| (b3 <<< 24)
    let k := imul k 0xcc9e2d51
    let k := rotl32 k 15
    let k := imul k 0x1b873593
    let h := h ^^^ k
    let h := rotl32 h 13
    let h := (imul h 5 + 0xe6546b64) % M32
    mm3Chunks h rest
  | rest => (h, rest)

/-- The remainder handling of `murmur3_32` (0 to 3 trailing bytes). -/
def mm3Tail (h : Nat) (rest : List Nat) : Nat :=
  let k : Nat := 0
  let k := if rest.length ≥ 3 then k ^^^ ((rest.getD 2 0) <<< 16) else k
  let k := if rest.length ≥ 2 then k ^^^ ((rest.getD 1 0) <<< 8) else k
  if rest.length ≥ 1 then
    let k := k ^^^ rest.getD 0 0
    let k := imul k 0xcc9e2d51
    let k := rotl32 k 15
    let k := imul k 0x1b873593
    h ^^^ k
  else h

/-- The finalization mix of `murmur3_32`. -/
def mm3Final (h len : Nat) : Nat :=
  let h := h ^^^ (len % M32)
  let h := h ^^^ (h >>> 16)
  let h := imul h 0x85ebca6b
  let h := h ^^^ (h >>> 13)
  let h := imul h 0xc2b2ae35
  h ^^^ (h >>> 16)

/-- `murmur3_32(str, seed)`: Murmur3 32-bit hash of a string
(each `charCodeAt` truncated to a byte, as in the source). -/
def murmur3_32 (s : Str) (seed : Nat) : Nat :=
  let bs := s.map (fun c => c.toNat &&& 0xff)
  let p := mm3Chunks (seed % M32) bs
  mm3Final (mm3Tail p.1 p.2) s.length

/-- `hash64(str)`: two Murmur3 passes; (0,0) is avoided by forcing lo to 1. -/
def hash64 (s : Str) : Hash64 :=
  let lo := murmur3_32 s 0x9e3779b9
  let hi := murmur3_32 s 0x85ebca6b
  if lo = 0 ∧ hi = 0 then ⟨1, hi⟩ else ⟨lo, hi⟩

/-- `hashToken(str)`: single Murmur3 pass, zero avoided. -/
def hashToken (s : Str) : Nat :=
  let h := murmur3_32 s 0x811c9dc5
  if h = 0 then 1 else h

/-- `hashDomain(domain)`: lowercase, then `hash64`. -/
def hashDomain (d : Str) : Hash64 := hash64 (jsToLower d)

/-- `hash64ToBigInt`: pack a Hash64 into one natural number. -/
def hash64ToBig (h : Hash64) : Nat := (h.hi <<< 32) ||| h.lo

/-- One entry of the CRC32 lookup table (8 rounds of the IEEE 802.3
polynomial step applied to the index). -/
def crc32TableEntry (i : Nat) : Nat :=
  (List.range 8).foldl
    (fun c _ => if c % 2 = 1 then 0xedb88320 ^^^ (c >>> 1) else c >>> 1) i

/-- `crc32(data)` over a byte sequence. -/
def crc32 (data : List Nat) : Nat :=
  let crc := data.foldl
    (fun crc b => crc32TableEntry ((crc ^^^ b) &&& 0xff) ^^^ (crc >>> 8))
    0xffffffff
  (crc ^^^ 0xffffffff) % M32

-- ===========================================================================
-- src/shared/psl.ts
-- ===========================================================================

/-- PSL rule sets: packed Hash64 values (as `hash64ToBigInt` packs them)
for exact TLD rules, wildcard rules and exception rules. -/
structure PSLSets where
  exact : List Nat
  wildcard : List Nat
  exception : List Nat
deriving DecidableEq, Repr

/-- `isExactRule(suffix)` against an optional (possibly unloaded) PSL. -/
def isExactRule (psl : Option PSLSets) (s : Str) : Bool :=
  match psl with
  | none => false
  | some p => p.exact.contains (hash64ToBig (hashDomain s))

/-- `isWildcardRule(suffix)`. -/
def isWildcardRule (psl : Option PSLSets) (s : Str) : Bool :=
  match psl with
  | none => false
  | some p => p.wildcard.contains (hash64ToBig (hashDomain s))

/-- `isExceptionRule(suffix)`. -/
def isExceptionRule (psl : Option PSLSets) (s : Str) : Bool :=
  match psl with
  | none => false
  | some p => p.exception.contains (hash64ToBig (hashDomain s))

/-- Remove one trailing dot, as `if (host.endsWith('.')) host.slice(0,-1)`. -/
def stripTrailingDot (h : Str) : Str :=
  if h.getLast? = some '.' then h.dropLast else h

/-- `splitHost(host)`: strip one trailing dot, lowercase, split on dots. -/
def splitHost (host : Str) : List Str :=
  splitOnChar '.' (jsToLower (stripTrailingDot host))

/-- The hard-coded two-part TLD list of `fallbackETLD1`. -/
def commonTwoPartTLDs : List Str :=
  [S "co.uk", S "co.jp", S "co.nz", S "co.za", S "co.in", S "co.kr",
   S "com.au", S "com.br", S "com.cn", S "com.mx", S "com.tw", S "com.hk",
   S "net.au", S "net.nz",
   S "org.uk", S "org.au",
   S "gov.uk", S "gov.au",
   S "ac.uk", S "ac.jp",
   S "ne.jp", S "or.jp"]

/-- `fallbackETLD1(labels)`: heuristic eTLD+1 when the PSL gives no answer. -/
def fallbackETLD1 (labels : List Str) : Str :=
  let n := labels.length
  if n ≤ 2 then joinChar '.' labels
  else
    let lastTwo := joinChar '.' (labels.drop (n - 2))
    if commonTwoPartTLDs.contains lastTwo then joinChar '.' (labels.drop (n - 3))
    else joinChar '.' (labels.drop (n - 2))

/-- The suffix-scanning loop of `computeETLD1`, from index `i`; the
`fuel` argument makes the recursion structural and is exhausted exactly
when the loop guard `i < labels.length - 1` fails (the wrapper passes
`labels.length - 1 - i`). -/
def etldLoopF (psl : Option PSLSets) (labels : List Str) (host : Str) :
    Nat → Nat → Str
  | _, 0 => fallbackETLD1 labels
  | i, fuel + 1 =>
    if i < labels.length - 1 then
      let suffix := joinChar '.' (labels.drop i)
      let parentSuffix := joinChar '.' (labels.drop (i + 1))
      if isExceptionRule psl suffix then
        if i > 0 then joinChar '.' (labels.drop (i - 1)) else suffix
      else if isExactRule psl suffix then
        if i > 0 then joinChar '.' (labels.drop (i - 1)) else host
      else if parentSuffix ≠ [] ∧ isWildcardRule psl parentSuffix then
        if i > 0 then joinChar '.' (labels.drop (i - 1)) else suffix
      else etldLoopF psl labels host (i + 1) fuel
    else fallbackETLD1 labels

def etldLoop (psl : Option PSLSets) (labels : List Str) (host : Str)
    (i : Nat) : Str :=
  etldLoopF psl labels host i (labels.length - 1 - i)

/-- `computeETLD1(host)` (host already normalized by the caller). -/
def computeETLD1 (psl : Option PSLSets) (host : Str) : Str :=
  let labels := splitHost host
  if labels.length ≤ 1 then host
  else
    match psl with
    | none => fallbackETLD1 labels
    | some _ => etldLoop psl labels host 0

/-- The eTLD+1 LRU cache, modelled as an association list in
least-recently-used-first order. -/
abbrev ETLDCache := List (Str × Str)

/-- `LRUCache.get`: look up and move the hit to the most-recent end. -/
def cacheGet (c : ETLDCache) (k : Str) : Option Str × ETLDCache :=
  match c.find? (fun p => p.1 = k) with
  | none => (none, c)
  | some p => (some p.2, (c.filter (fun q => ¬ q.1 = k)) ++ [p])

/-- `LRUCache.set` with capacity 4096: evict the oldest entry when full. -/
def cacheSet (c : ETLDCache) (k v : Str) : ETLDCache :=
  if (c.find? (fun p => p.1 = k)).isSome then
    (c.filter (fun q => ¬ q.1 = k)) ++ [(k, v)]
  else if c.length ≥ 4096 then c.drop 1 ++ [(k, v)]
  else c ++ [(k, v)]

/-- `getETLD1(host)`: normalize, consult the cache, fall back to
`computeETLD1`; returns the value and the updated cache state. -/
def getETLD1 (psl : Option PSLSets) (cache : ETLDCache) (host : Str) :
    Str × ETLDCache :=
  let host := stripTrailingDot (jsToLower host)
  match cacheGet cache host with
  | (some v, c) => (v, c)
  | (none, c) =>
    let r := computeETLD1 psl host
    (r, cacheSet c host r)

/-- The value `getETLD1` computes, with the cache abstracted away (the
cache is value-transparent; see `getETLD1_cacheOK`). -/
def getETLD1pure (psl : Option PSLSets) (host : Str) : Str :=
  computeETLD1 psl (stripTrailingDot (jsToLower host))

/-- `getParentDomain(host)`: strip the leftmost label, `none` when the
host has no dot or it is the final character. -/
def getParentDomain (host : Str) : Option Str :=
  match idxOfFrom host '.' 0 with
  | none => none
  | some idx =>
    if idx = host.length - 1 then none else some (host.drop (idx + 1))

theorem getParentDomain_length {h : Str} {p : Str}
    (hp : getParentDomain h = some p) : p.length < h.length := by
  unfold getParentDomain idxOfFrom at hp
  rw [List.drop_zero] at hp
  cases hf : List.findIdx? (fun x => x = '.') h with
  | none => rw [hf] at hp; simp at hp
  | some j =>
    rw [hf] at hp
    simp only [Option.map_some'] at hp
    have hj : j < h.length := (List.findIdx?_eq_some_iff_findIdx_eq.mp hf).1
    by_cases he : 0 + j = h.length - 1
    · simp [he] at hp
    · simp only [he, if_false, Option.some.injEq] at hp
      subst hp
      simp only [List.length_drop]
      omega

/-- The while loop of `walkHostSuffixes`, from the current suffix.  The
parent host is strictly shorter than the current one
(`getParentDomain_length`), so the wrapper's fuel of
`current.length + 1` never runs out. -/
def walkFromF (etldLen : Nat) : Str → Nat → List Str
  | _, 0 => []
  | current, fuel + 1 =>
    if current.length ≥ etldLen then
      current ::
        (match getParentDomain current with
         | none => []
         | some parent =>
           if parent.length < etldLen then []
           else walkFromF etldLen parent fuel)
    else []

def walkFrom (etldLen : Nat) (current : Str) : List Str :=
  walkFromF etldLen current (current.length + 1)

/-- `walkHostSuffixes(host)`: the host, then each parent, stopping at the
eTLD+1 (the LRU cache of `getETLD1` is modelled by its value). -/
def walkHostSuffixes (psl : Option PSLSets) (host : Str) : List Str :=
  let etld1 := getETLD1pure psl host
  walkFrom etld1.length (jsToLower host)

-- ===========================================================================
-- src/bg/url-utils.ts
-- ===========================================================================

/-- `getSchemeEnd(url)`: position after `://`, after `data:`, else 0. -/
def getSchemeEnd (url : Str) : Nat :=
  match idxOfFrom url ':' 0 with
  | none => 0
  | some colonPos =>
    if url.length > colonPos + 2 ∧ url.getD (colonPos + 1) ' ' = '/' ∧
        url.getD (colonPos + 2) ' ' = '/' then
      colonPos + 3
    else if jsToLower (url.take colonPos) = S "data" then colonPos + 1
    else 0

/-- `fastExtractHost(url)`: host between the scheme and the first of
`/ ? # :`, lowercased, userinfo stripped. -/
def fastExtractHost (url : Str) : Str :=
  let schemeEnd := getSchemeEnd url
  if schemeEnd = 0 then []
  else
    let hostEnd :=
      match (url.drop schemeEnd).findIdx?
          (fun c => c = '/' ∨ c = '?' ∨ c = '#' ∨ c = ':') with
      | none => url.length
      | some i => schemeEnd + i
    let host := jsToLower ((url.take hostEnd).drop schemeEnd)
    match idxOfFrom host '@' 0 with
    | none => host
    | some atPos => host.drop (atPos + 1)

/-- `isAlnum(c)` on a character code. -/
def isAlnum (c : Nat) : Bool :=
  (0x30 ≤ c ∧ c ≤ 0x39) ∨ (0x41 ≤ c ∧ c ≤ 0x5a) ∨ (0x61 ≤ c ∧ c ≤ 0x7a)

/-- The scanning loop of `tokenizeUrl`: position `i`, optional token
start, accumulated token hashes (at most 32).  The fuel
`url.length + 1 - i` is exhausted exactly when `i > url.length`. -/
def tokenizeLoopF (url : Str) : Nat → Option Nat → List Nat → Nat → List Nat
  | _, _, acc, 0 => acc
  | i, tokenStart, acc, fuel + 1 =>
    if i ≤ url.length ∧ acc.length < 32 then
      let c := if i < url.length then (url.getD i ' ').toNat else 0
      if isAlnum c then
        tokenizeLoopF url (i + 1)
          (match tokenStart with | none => some i | some ts => some ts) acc fuel
      else
        match tokenStart with
        | none => tokenizeLoopF url (i + 1) none acc fuel
        | some ts =>
          if i - ts ≥ 3 then
            tokenizeLoopF url (i + 1) none
              (acc ++ [hashToken (jsToLower ((url.take i).drop ts))]) fuel
          else tokenizeLoopF url (i + 1) none acc fuel
    else acc

/-- `tokenizeUrl(url)`: hashes of the alphanumeric tokens of length ≥ 3
after the scheme, at most 32 of them. -/
def tokenizeUrl (url : Str) : List Nat :=
  let schemeEnd := getSchemeEnd url
  let start := if schemeEnd > 0 then schemeEnd else 0
  tokenizeLoopF url start none [] (url.length + 1 - start)

/-- `isBoundaryChar(c)`: end of string, or non-alphanumeric non-`%`. -/
def isBoundaryChar (c : Nat) : Bool :=
  if c = 0 then true
  else if isAlnum c then false
  else if c = 0x25 then false
  else true

/-- `isAtBoundary(str, pos)`. -/
def isAtBoundary (s : Str) (pos : Nat) : Bool :=
  if pos ≥ s.length then true
  else isBoundaryChar (s.getD pos ' ').toNat

/-- The key of one `key=value` query pair (everything before the first
`=`, or the whole pair). -/
def pairKey (pair : Str) : Str :=
  match idxOfFrom pair '=' 0 with
  | none => pair
  | some eqPos => pair.take eqPos

/-- `removeQueryParams(url, keysToRemove)`: drop the query pairs whose
key is in the set; keep the fragment; return the original URL when
nothing changed. -/
def removeQueryParams (url : Str) (keysToRemove : List Str) : Str :=
  match idxOfFrom url '?' 0 with
  | none => url
  | some qPos =>
    let hashPos := idxOfFrom url '#' qPos
    let fragment := match hashPos with | none => [] | some hp => url.drop hp
    let qEnd := match hashPos with | none => url.length | some hp => hp
    let query := (url.take qEnd).drop (qPos + 1)
    if query = [] then url
    else
      let pairs := splitOnChar '&' query
      let kept := pairs.filter (fun p => ¬ keysToRemove.contains (pairKey p))
      let changed := pairs.any (fun p => keysToRemove.contains (pairKey p))
      if ¬ changed then url
      else
        let base := url.take qPos
        if kept = [] then base ++ fragment
        else base ++ ['?'] ++ joinChar '&' kept ++ fragment

/-- `getHostPosition(url)`: start and end of the hostname, or `none`. -/
def getHostPosition (url : Str) : Option (Nat × Nat) :=
  let schemeEnd := getSchemeEnd url
  if schemeEnd = 0 then none
  else
    let hostStart :=
      match (url.drop schemeEnd).findIdx? (fun c => c = '@' ∨ c = '/') with
      | some i => if url.getD (schemeEnd + i) ' ' = '@' then schemeEnd + i + 1
                  else schemeEnd
      | none => schemeEnd
    let hostEnd :=
      match (url.drop hostStart).findIdx?
          (fun c => c = '/' ∨ c = '?' ∨ c = '#' ∨ c = ':') with
      | none => url.length
      | some i => hostStart + i
    some (hostStart, hostEnd)

-- ===========================================================================
-- src/shared/snapshot/loader.ts — snapshot structure and section views
-- ===========================================================================

/-- Exceptions a matcher/loader call can raise: `range` models the
RangeError of an out-of-bounds DataView/typed-array operation, `thrown`
models an explicit `throw new Error(msg)`. -/
inductive JsError where
  | range : JsError
  | thrown : String → JsError
deriving DecidableEq, Repr

/-- Computations that may raise a JavaScript exception. -/
abbrev JS (α : Type) := Except JsError α

instance {ε α : Type} [DecidableEq ε] [DecidableEq α] :
    DecidableEq (Except ε α) := fun x y =>
  match x, y with
  | .ok a, .ok b =>
    if h : a = b then isTrue (by rw [h]) else isFalse (by simp [h])
  | .error a, .error b =>
    if h : a = b then isTrue (by rw [h]) else isFalse (by simp [h])
  | .ok _, .error _ => isFalse (by simp)
  | .error _, .ok _ => isFalse (by simp)

/-- `DataView.getUint8` with its bounds check. -/
def getU8 (b : List Nat) (off : Nat) : JS Nat :=
  if off < b.length then .ok (b.getD off 0) else .error .range

/-- `DataView.getUint16(off, true)` (little-endian). -/
def getU16 (b : List Nat) (off : Nat) : JS Nat := do
  let x0 ← getU8 b off
  let x1 ← getU8 b (off + 1)
  .ok (x0 ||| (x1 <<< 8))

/-- `DataView.getUint32(off, true)` (little-endian). -/
def getU32 (b : List Nat) (off : Nat) : JS Nat := do
  let x0 ← getU8 b off
  let x1 ← getU8 b (off + 1)
  let x2 ← getU8 b (off + 2)
  let x3 ← getU8 b (off + 3)
  .ok (x0 ||| (x1 <<< 8) ||| (x2 <<< 16) ||| (x3 <<< 24))

/-- Little-endian read of `n` bytes via indexing (typed-array element
access; out-of-range list positions give 0 and are excluded by the view
bounds checks made at view construction). -/
def rdLE (buf : List Nat) (off : Nat) : Nat → Nat
  | 0 => 0
  | n + 1 => buf.getD off 0 + 256 * rdLE buf (off + 1) n

/-- Interpret a 16-bit value as a signed Int16Array element. -/
def i16val (n : Nat) : Int :=
  if n < 0x8000 then Int.ofNat n else Int.ofNat n - 0x10000

/-- One parsed section-directory entry. -/
structure SectionInfo where
  id : Nat
  flags : Nat
  offset : Nat
  length : Nat
  uncompressedLength : Nat
  crc : Nat
deriving DecidableEq, Repr

/-- A loaded snapshot: the raw bytes plus the parsed section directory
(the source class keeps lazily-built views; here each accessor re-derives
its view from the bytes, which is observationally identical). -/
structure Snapshot where
  buffer : List Nat
  sections : List SectionInfo
deriving DecidableEq, Repr

/-- `Map.get` on the section directory (ids are unique after `Map.set`). -/
def sectionsGet (s : Snapshot) (id : Nat) : Option SectionInfo :=
  s.sections.find? (fun sec => sec.id = id)

/-- `Map.set` keyed by section id: replace in place or append. -/
def mapSet (m : List SectionInfo) (info : SectionInfo) : List SectionInfo :=
  if (m.find? (fun sec => sec.id = info.id)).isSome then
    m.map (fun sec => if sec.id = info.id then info else sec)
  else m ++ [info]

def msgNoStrpool : String := "Snapshot missing STRPOOL section"
def msgVarint : String := "Varint too long"
def msgBadMagic : String := "Invalid snapshot: bad magic bytes"
def msgBadVersion : String := "Unsupported snapshot version"
def msgCrcMismatch : String := "Snapshot CRC32 mismatch"

/-- The `strPool` getter: byte offset and length of the pool view, with
the `Uint8Array` construction bounds check. -/
def strPoolView (s : Snapshot) : JS (Nat × Nat) :=
  match sectionsGet s 0x0001 with
  | none => .error (.thrown msgNoStrpool)
  | some sec => do
    let bytesLen ← getU32 s.buffer sec.offset
    if sec.offset + 4 + bytesLen ≤ s.buffer.length then .ok (sec.offset + 4, bytesLen)
    else .error .range

/-- A `TextDecoder` byte (agrees with UTF-8 decoding on ASCII content;
non-ASCII bytes, absent from the cases studied here, are mapped to the
replacement character). -/
def utf8DecodeByte (b : Nat) : Char :=
  if b < 128 then Char.ofNat b else Char.ofNat 0xFFFD

/-- `getString(offset, length)`: `subarray` clamps, decode to text. -/
def getString (s : Snapshot) (off len : Nat) : JS Str := do
  let pool ← strPoolView s
  let b := min off pool.2
  let e := min (off + len) pool.2
  .ok (((s.buffer.drop (pool.1 + b)).take (e - b)).map utf8DecodeByte)

-- --------------------------------------------------------------------------
-- DomainHashSet (HashMap64toU32 view; header 20 bytes, entries 12 bytes)
-- --------------------------------------------------------------------------

structure DomainHashSet where
  buf : List Nat
  baseOffset : Nat
  capacity : Nat
  isEmptySet : Bool
deriving Repr

/-- The `DomainHashSet` constructor (reads the capacity word). -/
def mkDomainHashSet (buf : List Nat) (offset : Nat) (empty : Bool) :
    JS DomainHashSet :=
  if empty then .ok ⟨buf, offset, 0, true⟩
  else do
    let cap ← getU32 buf offset
    .ok ⟨buf, offset, cap, false⟩

/-- The `domainBlockSet` getter (block table first in DOMAIN_SETS). -/
def domainBlockSet (s : Snapshot) : JS DomainHashSet :=
  match sectionsGet s 0x0003 with
  | none => mkDomainHashSet s.buffer 0 true
  | some sec => mkDomainHashSet s.buffer sec.offset false

/-- The `domainAllowSet` getter (skips past the block table). -/
def domainAllowSet (s : Snapshot) : JS DomainHashSet :=
  match sectionsGet s 0x0003 with
  | none => mkDomainHashSet s.buffer 0 true
  | some sec => do
    let blockCapacity ← getU32 s.buffer sec.offset
    mkDomainHashSet s.buffer (sec.offset + (20 + blockCapacity * 12)) false

/-- The linear-probe loop of `DomainHashSet.lookup`, with at most
`capacity` probes as in the source. -/
def dhsProbe (d : DomainHashSet) (h : Hash64) (idx : Nat) :
    Nat → JS (Option Nat)
  | 0 => .ok none
  | fuel + 1 => do
    let entryOffset := d.baseOffset + 20 + idx * 12
    let lo ← getU32 d.buf entryOffset
    let hi ← getU32 d.buf (entryOffset + 4)
    if lo = 0 ∧ hi = 0 then .ok none
    else if lo = h.lo ∧ hi = h.hi then do
      let v ← getU32 d.buf (entryOffset + 8)
      .ok (some v)
    else dhsProbe d h ((idx + 1) &&& (d.capacity - 1)) fuel

/-- `DomainHashSet.lookup(hash)`: the single stored rule id for a domain
hash (`-1` in the source is modelled as `none`). -/
def dhsLookup (d : DomainHashSet) (h : Hash64) : JS (Option Nat) :=
  if d.isEmptySet ∨ d.capacity = 0 then .ok none
  else dhsProbe d h (h.lo % d.capacity) d.capacity

-- --------------------------------------------------------------------------
-- TokenDict (header 16 bytes, entries 12 bytes)
-- --------------------------------------------------------------------------

structure TokenEntry where
  tokenHash : Nat
  postingsOffset : Nat
  ruleCount : Nat
deriving DecidableEq, Repr

structure TokenDict where
  buf : List Nat
  baseOffset : Nat
  capacity : Nat
  isEmptySet : Bool
deriving Repr

def mkTokenDict (buf : List Nat) (offset : Nat) (empty : Bool) : JS TokenDict :=
  if empty then .ok ⟨buf, offset, 0, true⟩
  else do
    let cap ← getU32 buf offset
    .ok ⟨buf, offset, cap, false⟩

/-- The `tokenDict` getter. -/
def tokenDict (s : Snapshot) : JS TokenDict :=
  match sectionsGet s 0x0004 with
  | none => mkTokenDict s.buffer 0 true
  | some sec => mkTokenDict s.buffer sec.offset false

def tdProbe (t : TokenDict) (tokenHash idx : Nat) :
    Nat → JS (Option TokenEntry)
  | 0 => .ok none
  | fuel + 1 => do
    let entryOffset := t.baseOffset + 16 + idx * 12
    let storedHash ← getU32 t.buf entryOffset
    if storedHash = 0 then .ok none
    else if storedHash = tokenHash then do
      let po ← getU32 t.buf (entryOffset + 4)
      let rc ← getU32 t.buf (entryOffset + 8)
      .ok (some ⟨storedHash, po, rc⟩)
    else tdProbe t tokenHash ((idx + 1) &&& (t.capacity - 1)) fuel

/-- `TokenDict.lookup(tokenHash)`. -/
def tdLookup (t : TokenDict) (h : Nat) : JS (Option TokenEntry) :=
  if t.isEmptySet ∨ t.capacity = 0 then .ok none
  else tdProbe t h (h % t.capacity) t.capacity

/-- The `tokenPostings` getter (materialized view content). -/
def tokenPostings (s : Snapshot) : JS (List Nat) :=
  match sectionsGet s 0x0005 with
  | none => .ok []
  | some sec => do
    let bytesLen ← getU32 s.buffer sec.offset
    if sec.offset + 4 + bytesLen ≤ s.buffer.length then
      .ok ((s.buffer.drop (sec.offset + 4)).take bytesLen)
    else .error .range

-- --------------------------------------------------------------------------
-- PatternPool (index entries 24 bytes)
-- --------------------------------------------------------------------------

structure PatternEntry where
  progOffset : Nat
  progLen : Nat
  anchorType : Nat
  flags : Nat
  hostHashLo : Nat
  hostHashHi : Nat
deriving DecidableEq, Repr

structure PatternPool where
  buf : List Nat
  baseOffset : Nat
  patternCount : Nat
  progBytesOffset : Nat
  isEmptySet : Bool
deriving Repr

def mkPatternPool (buf : List Nat) (offset : Nat) (empty : Bool) :
    JS PatternPool :=
  if empty then .ok ⟨buf, offset, 0, 0, true⟩
  else do
    let cnt ← getU32 buf offset
    .ok ⟨buf, offset, cnt, offset + 4 + cnt * 24 + 4, false⟩

/-- The `patternPool` getter. -/
def patternPool (s : Snapshot) : JS PatternPool :=
  match sectionsGet s 0x0006 with
  | none => mkPatternPool s.buffer 0 true
  | some sec => mkPatternPool s.buffer sec.offset false

/-- `PatternPool.getPattern(patternId)`. -/
def getPattern (p : PatternPool) (patternId : Nat) : JS (Option PatternEntry) :=
  if p.isEmptySet ∨ patternId ≥ p.patternCount then .ok none
  else do
    let entryOffset := p.baseOffset + 4 + patternId * 24
    let po ← getU32 p.buf entryOffset
    let pl ← getU16 p.buf (entryOffset + 4)
    let anc ← getU8 p.buf (entryOffset + 6)
    let fl ← getU8 p.buf (entryOffset + 7)
    let hlo ← getU32 p.buf (entryOffset + 8)
    let hhi ← getU32 p.buf (entryOffset + 12)
    .ok (some ⟨po, pl, anc, fl, hlo, hhi⟩)

/-- `PatternPool.getProgram(entry)`, with the `Uint8Array` bounds check. -/
def getProgram (p : PatternPool) (e : PatternEntry) : JS (List Nat) :=
  if p.isEmptySet then .ok []
  else if p.progBytesOffset + e.progOffset + e.progLen ≤ p.buf.length then
    .ok ((p.buf.drop (p.progBytesOffset + e.progOffset)).take e.progLen)
  else .error .range

-- --------------------------------------------------------------------------
-- RulesView (SoA layout)
-- --------------------------------------------------------------------------

/-- `alignOffset(offset, alignment)` for a power-of-two alignment. -/
def alignOffset (offset alignment : Nat) : Nat :=
  ((offset + alignment - 1) / alignment) * alignment

structure RulesView where
  buf : List Nat
  count : Nat
  actionOff : Nat
  flagsOff : Nat
  typeMaskOff : Nat
  partyMaskOff : Nat
  schemeMaskOff : Nat
  patternIdOff : Nat
  constraintOff : Nat
  optionIdOff : Nat
  priorityOff : Nat
  listIdOff : Nat
deriving Repr

/-- Typed-array view construction check: alignment and bounds. -/
def taCheck (len pos elemSize count : Nat) : JS Unit :=
  if pos % elemSize = 0 ∧ pos + count * elemSize ≤ len then .ok ()
  else .error .range

/-- The `RulesView` constructor: lays out the SoA arrays with alignment
padding exactly as the source does. -/
def mkRulesView (buf : List Nat) (offset count : Nat) : JS RulesView :=
  if count = 0 then .ok ⟨buf, 0, 0, 0, 0, 0, 0, 0, 0, 0, 0, 0⟩
  else do
    let actionOff := offset
    let _ ← taCheck buf.length actionOff 1 count
    let pos := alignOffset (actionOff + count) 2
    let flagsOff := pos
    let _ ← taCheck buf.length flagsOff 2 count
    let pos := alignOffset (pos + count * 2) 4
    let typeMaskOff := pos
    let _ ← taCheck buf.length typeMaskOff 4 count
    let pos := pos + count * 4
    let partyMaskOff := pos
    let _ ← taCheck buf.length partyMaskOff 1 count
    let pos := alignOffset (pos + count) 1
    let schemeMaskOff := pos
    let _ ← taCheck buf.length schemeMaskOff 1 count
    let pos := alignOffset (pos + count) 4
    let patternIdOff := pos
    let _ ← taCheck buf.length patternIdOff 4 count
    let pos := pos + count * 4
    let constraintOff := pos
    let _ ← taCheck buf.length constraintOff 4 count
    let pos := pos + count * 4
    let optionIdOff := pos
    let _ ← taCheck buf.length optionIdOff 4 count
    let pos := pos + count * 4
    let priorityOff := pos
    let _ ← taCheck buf.length priorityOff 2 count
    let pos := alignOffset (pos + count * 2) 2
    let listIdOff := pos
    let _ ← taCheck buf.length listIdOff 2 count
    .ok ⟨buf, count, actionOff, flagsOff, typeMaskOff, partyMaskOff,
      schemeMaskOff, patternIdOff, constraintOff, optionIdOff, priorityOff,
      listIdOff⟩

/-- The `rules` getter. -/
def rulesView (s : Snapshot) : JS RulesView :=
  match sectionsGet s 0x0007 with
  | none => mkRulesView s.buffer 0 0
  | some sec => do
    let ruleCount ← getU32 s.buffer sec.offset
    mkRulesView s.buffer (sec.offset + 4) ruleCount

/-- Element access on the SoA arrays: JavaScript yields `undefined` for
an out-of-range index, modelled as `none`. -/
def rulesAction (rv : RulesView) (i : Nat) : Option Nat :=
  if i < rv.count then some (rdLE rv.buf (rv.actionOff + i) 1) else none

def rulesFlags (rv : RulesView) (i : Nat) : Option Nat :=
  if i < rv.count then some (rdLE rv.buf (rv.flagsOff + i * 2) 2) else none

def rulesTypeMask (rv : RulesView) (i : Nat) : Option Nat :=
  if i < rv.count then some (rdLE rv.buf (rv.typeMaskOff + i * 4) 4) else none

def rulesPartyMask (rv : RulesView) (i : Nat) : Option Nat :=
  if i < rv.count then some (rdLE rv.buf (rv.partyMaskOff + i) 1) else none

def rulesSchemeMask (rv : RulesView) (i : Nat) : Option Nat :=
  if i < rv.count then some (rdLE rv.buf (rv.schemeMaskOff + i) 1) else none

def rulesPatternId (rv : RulesView) (i : Nat) : Option Nat :=
  if i < rv.count then some (rdLE rv.buf (rv.patternIdOff + i * 4) 4) else none

def rulesConstraintOff (rv : RulesView) (i : Nat) : Option Nat :=
  if i < rv.count then some (rdLE rv.buf (rv.constraintOff + i * 4) 4) else none

def rulesOptionId (rv : RulesView) (i : Nat) : Option Nat :=
  if i < rv.count then some (rdLE rv.buf (rv.optionIdOff + i * 4) 4) else none

def rulesPriority (rv : RulesView) (i : Nat) : Option Int :=
  if i < rv.count then some (i16val (rdLE rv.buf (rv.priorityOff + i * 2) 2))
  else none

def rulesListId (rv : RulesView) (i : Nat) : Option Nat :=
  if i < rv.count then some (rdLE rv.buf (rv.listIdOff + i * 2) 2) else none

/-- The `domainConstraints` getter: (backing buffer, view byte offset);
a missing section gives a fresh empty buffer. -/
def domainConstraintsView (s : Snapshot) : JS (List Nat × Nat) :=
  match sectionsGet s 0x0008 with
  | none => .ok ([], 0)
  | some sec => do
    let blobLen ← getU32 s.buffer sec.offset
    if sec.offset + 4 + blobLen ≤ s.buffer.length then .ok (s.buffer, sec.offset + 4)
    else .error .range

-- --------------------------------------------------------------------------
-- Varint / posting-list decoding
-- --------------------------------------------------------------------------

/-- The byte loop of `decodeVarint` (JavaScript `<<` takes the shift
count modulo 32; the running result is coerced to 32 bits by `|=`).
The fuel `data.length - (offset + bytesRead)` is exhausted exactly when
the loop condition fails. -/
def decodeVarintLoopF (data : List Nat) (offset : Nat) :
    Nat → Nat → Nat → Nat → JS (Nat × Nat)
  | result, _, bytesRead, 0 => .ok (result, bytesRead)
  | result, shift, bytesRead, fuel + 1 =>
    if offset + bytesRead < data.length then
      let byte := data.getD (offset + bytesRead) 0
      let bytesRead' := bytesRead + 1
      let result' := result ||| (((byte &&& 0x7f) <<< (shift % 32)) % M32)
      if byte &&& 0x80 = 0 then .ok (result', bytesRead')
      else
        let shift' := shift + 7
        if shift' > 35 then .error (.thrown msgVarint)
        else decodeVarintLoopF data offset result' shift' bytesRead' fuel
    else .ok (result, bytesRead)

/-- `decodeVarint(data, offset)` → (value, bytesRead). -/
def decodeVarint (data : List Nat) (offset : Nat) : JS (Nat × Nat) :=
  decodeVarintLoopF data offset 0 0 0 (data.length - offset)

/-- The per-id loop of `decodePostingList`. -/
def dplLoop (data : List Nat) : Nat → Nat → Nat → JS (List Nat)
  | _, _, 0 => .ok []
  | pos, prevId, n + 1 => do
    let dv ← decodeVarint data pos
    let prevId' := prevId + dv.1
    let rest ← dplLoop data (pos + dv.2) prevId' n
    .ok (prevId' :: rest)

/-- `decodePostingList(data, offset, count)`: delta-decoded rule ids. -/
def decodePostingList (data : List Nat) (offset count : Nat) : JS (List Nat) :=
  dplLoop data offset 0 count

-- ===========================================================================
-- src/bg/matcher.ts — the hot-path matching engine
-- ===========================================================================

/-- The wire decisions (ALLOW=0, BLOCK=1, REDIRECT=2, REMOVEPARAM=3). -/
inductive MatchDecision where
  | allow
  | block
  | redirect
  | removeparam
deriving DecidableEq, Repr

structure MatchResult where
  decision : MatchDecision
  ruleId : Int
  listId : Int
  redirectUrl : Option Str := none
deriving DecidableEq, Repr

structure RequestContext where
  url : Str
  reqHost : Str
  reqETLD1 : Str
  siteHost : Str
  siteETLD1 : Str
  isThirdParty : Bool
  type : Nat
  scheme : Nat
deriving DecidableEq, Repr

structure MatchCandidate where
  ruleId : Nat
  action : Nat
  isImportant : Bool
  priority : Int
deriving DecidableEq, Repr

/-- `checkRuleOptions`: type mask, party mask, scheme mask. -/
def checkRuleOptions (rv : RulesView) (ruleId : Nat) (ctx : RequestContext) :
    Bool :=
  let typeMask := (rulesTypeMask rv ruleId).getD 0
  if typeMask ≠ 0 ∧ typeMask &&& ctx.type = 0 then false
  else
    let partyMask := (rulesPartyMask rv ruleId).getD 3
    let requestParty := if ctx.isThirdParty then 2 else 1
    if partyMask &&& requestParty = 0 then false
    else
      let schemeMask := (rulesSchemeMask rv ruleId).getD 0xff
      if ctx.scheme ≠ 0 ∧ schemeMask &&& ctx.scheme = 0 then false
      else true

/-- The include-list scan of `checkDomainConstraints`: stops at the first
match, returning the found flag and the cursor position reached. -/
def scanIncl (buf : List Nat) (base : Nat) (sh : Hash64) :
    Nat → Nat → JS (Bool × Nat)
  | pos, 0 => .ok (false, pos)
  | pos, n + 1 => do
    let lo ← getU32 buf (base + pos)
    let hi ← getU32 buf (base + pos + 4)
    if lo = sh.lo ∧ hi = sh.hi then .ok (true, pos + 8)
    else scanIncl buf base sh (pos + 8) n

/-- The exclude-list scan of `checkDomainConstraints`: `false` when the
site hash matches an exclude entry. -/
def scanExcl (buf : List Nat) (base : Nat) (sh : Hash64) :
    Nat → Nat → JS Bool
  | _, 0 => .ok true
  | pos, n + 1 => do
    let lo ← getU32 buf (base + pos)
    let hi ← getU32 buf (base + pos + 4)
    if lo = sh.lo ∧ hi = sh.hi then .ok false
    else scanExcl buf base sh (pos + 8) n

/-- `checkDomainConstraints(ruleId, ctx, snapshot)`: the `$domain=`
check.  Note: the only hash ever compared is `hashDomain(ctx.siteETLD1)`. -/
def checkDomainConstraints (s : Snapshot) (ruleId : Nat)
    (ctx : RequestContext) : JS Bool := do
  let rv ← rulesView s
  match rulesConstraintOff rv ruleId with
  | none => .ok true
  | some constraintOff =>
    if constraintOff = 0xffffffff then .ok true
    else do
      let cons ← domainConstraintsView s
      if cons.2 + constraintOff > cons.1.length then .error .range
      else do
        let viewBase := cons.2 + constraintOff
        let includeCount ← getU16 cons.1 viewBase
        let excludeCount ← getU16 cons.1 (viewBase + 2)
        let siteHash := hashDomain ctx.siteETLD1
        if includeCount > 0 then do
          let found ← scanIncl cons.1 viewBase siteHash 4 includeCount
          if ¬ found.1 then .ok false
          else scanExcl cons.1 viewBase siteHash found.2 excludeCount
        else scanExcl cons.1 viewBase siteHash (4 + includeCount * 8) excludeCount

/-- First index at or after `start` where `pat` occurs in `s`
(`s.indexOf(pat, start)`). -/
def idxOfSubFrom (s pat : Str) (start : Nat) : Option Nat :=
  ((List.range (s.length + 1)).filter (fun i => start ≤ i)).find?
    (fun i => (s.drop i).take pat.length = pat)

/-- The opcode interpreter loop of `verifyPattern`.  Operand bytes read
past the program end behave as 0 (JavaScript `undefined` coerced by the
bitwise operators); an opcode is always read in bounds thanks to the
loop condition. -/
def verifyLoop (s : Snapshot) (psl : Option PSLSets) (url : Str)
    (pat : PatternEntry) (program : List Nat) (urlLower : Str) :
    Nat → Nat → Nat → JS Bool
  | _, _, 0 => .ok true
  | urlPos, progPos, fuel + 1 =>
    if progPos < program.length then
      let op := program.getD progPos 0
      let progPos1 := progPos + 1
      if op = 1 then
        -- FIND_LIT
        let strOff := program.getD progPos1 0 |||
          (program.getD (progPos1 + 1) 0 <<< 8) |||
          (program.getD (progPos1 + 2) 0 <<< 16) |||
          (program.getD (progPos1 + 3) 0 <<< 24)
        let strLen := program.getD (progPos1 + 4) 0 |||
          (program.getD (progPos1 + 5) 0 <<< 8)
        do
          let lit ← getString s strOff strLen
          let literal := jsToLower lit
          match idxOfSubFrom urlLower literal urlPos with
          | none => .ok false
          | some foundPos =>
            verifyLoop s psl url pat program urlLower
              (foundPos + literal.length) (progPos1 + 6) fuel
      else if op = 2 then
        -- ASSERT_START
        if urlPos ≠ 0 then .ok false
        else verifyLoop s psl url pat program urlLower urlPos progPos1 fuel
      else if op = 3 then
        -- ASSERT_END
        if urlPos ≠ url.length then .ok false
        else verifyLoop s psl url pat program urlLower urlPos progPos1 fuel
      else if op = 4 then
        -- ASSERT_BOUNDARY
        if ¬ isAtBoundary url urlPos then .ok false
        else verifyLoop s psl url pat program urlLower urlPos progPos1 fuel
      else if op = 5 then
        -- SKIP_ANY
        verifyLoop s psl url pat program urlLower urlPos progPos1 fuel
      else if op = 6 then
        -- HOST_ANCHOR
        match getHostPosition url with
        | none => .ok false
        | some hostPos =>
          if pat.hostHashLo ≠ 0 ∨ pat.hostHashHi ≠ 0 then
            let reqHost := fastExtractHost url
            let hostMatches := (walkHostSuffixes psl reqHost).any
              (fun suf => (hashDomain suf).lo = pat.hostHashLo ∧
                (hashDomain suf).hi = pat.hostHashHi)
            if ¬ hostMatches then .ok false
            else if urlPos > hostPos.2 then .ok false
            else verifyLoop s psl url pat program urlLower urlPos progPos1 fuel
          else if urlPos > hostPos.2 then .ok false
          else verifyLoop s psl url pat program urlLower urlPos progPos1 fuel
      else if op = 7 then
        -- DONE
        .ok true
      else .ok false
    else .ok true

/-- `verifyPattern(url, pattern, patternPool, snapshot)`: the full-URL
lowercasing and literal lowercasing happen unconditionally here. -/
def verifyPattern (s : Snapshot) (psl : Option PSLSets) (url : Str)
    (pat : Option PatternEntry) (pool : PatternPool) : JS Bool :=
  match pat with
  | none => .ok false
  | some pattern => do
    let program ← getProgram pool pattern
    verifyLoop s psl url pattern program (jsToLower url) 0 0 (program.length + 1)

/-- The suffix loop of `matchDomainSets`: each suffix contributes at most
one allow candidate and one block candidate (one rule id per hash). -/
def domainSetsLoop (s : Snapshot) (allowSet blockSet : DomainHashSet) :
    List Str → JS (List MatchCandidate)
  | [] => .ok []
  | suffix :: rest => do
    let h := hashDomain suffix
    let allowRuleId ← dhsLookup allowSet h
    let allowCands : List MatchCandidate :=
      match allowRuleId with
      | none => []
      | some rid => [⟨rid, 0, false, 0⟩]
    let blockRuleId ← dhsLookup blockSet h
    let blockCands ← (match blockRuleId with
      | none => pure ([] : List MatchCandidate)
      | some rid => do
        let rv ← rulesView s
        let flags := (rulesFlags rv rid).getD 0
        pure [(⟨rid, 1, (flags &&& 1) != 0, 0⟩ : MatchCandidate)])
    let more ← domainSetsLoop s allowSet blockSet rest
    .ok (allowCands ++ blockCands ++ more)

/-- `matchDomainSets(ctx, snapshot, candidates)`. -/
def matchDomainSets (s : Snapshot) (psl : Option PSLSets)
    (ctx : RequestContext) : JS (List MatchCandidate) := do
  let allowSet ← domainAllowSet s
  let blockSet ← domainBlockSet s
  domainSetsLoop s allowSet blockSet (walkHostSuffixes psl ctx.reqHost)

/-- The rarest-token selection loop of `matchTokenRules`. -/
def bestTokenLoop (td : TokenDict) :
    List Nat → Option TokenEntry → JS (Option TokenEntry)
  | [], best => .ok best
  | h :: rest, best => do
    let entry ← tdLookup td h
    let best' :=
      match entry, best with
      | some e, none => some e
      | some e, some b => if e.ruleCount < b.ruleCount then some e else some b
      | none, b => b
    bestTokenLoop td rest best'

/-- The candidate verification loop of `matchTokenRules`. -/
def tokenCandLoop (s : Snapshot) (psl : Option PSLSets)
    (ctx : RequestContext) (rv : RulesView) (pool : PatternPool) :
    List Nat → JS (List MatchCandidate)
  | [] => .ok []
  | ruleId :: rest =>
    if ¬ checkRuleOptions rv ruleId ctx then
      tokenCandLoop s psl ctx rv pool rest
    else do
      let domOk ← checkDomainConstraints s ruleId ctx
      if ¬ domOk then tokenCandLoop s psl ctx rv pool rest
      else do
        let patOk ← (match rulesPatternId rv ruleId with
          | some patternId =>
            if patternId ≠ 0xffffffff then do
              let pat ← getPattern pool patternId
              match pat with
              | some p => verifyPattern s psl ctx.url (some p) pool
              | none => pure true
            else pure true
          | none => pure true)
        if ¬ patOk then tokenCandLoop s psl ctx rv pool rest
        else
          match rulesAction rv ruleId with
          | none => tokenCandLoop s psl ctx rv pool rest
          | some action => do
            let flags := (rulesFlags rv ruleId).getD 0
            let priority := (rulesPriority rv ruleId).getD 0
            let more ← tokenCandLoop s psl ctx rv pool rest
            .ok (⟨ruleId, action, (flags &&& 1) != 0, priority⟩ :: more)

/-- `matchTokenRules(ctx, snapshot, candidates)`. -/
def matchTokenRules (s : Snapshot) (psl : Option PSLSets)
    (ctx : RequestContext) : JS (List MatchCandidate) := do
  let td ← tokenDict s
  let postings ← tokenPostings s
  let rv ← rulesView s
  let pool ← patternPool s
  let tokenHashes := tokenizeUrl ctx.url
  if tokenHashes.length = 0 then .ok []
  else do
    let best ← bestTokenLoop td tokenHashes none
    match best with
    | none => .ok []
    | some bestEntry => do
      let ruleIds ← decodePostingList postings bestEntry.postingsOffset
        bestEntry.ruleCount
      tokenCandLoop s psl ctx rv pool ruleIds

/-- `getRedirectUrl(ruleId, snapshot)`. -/
def getRedirectUrl (s : Snapshot) (ruleId : Nat) : JS (Option Str) := do
  let rv ← rulesView s
  match rulesOptionId rv ruleId with
  | none => .ok none
  | some optionId =>
    if optionId = 0xffffffff then .ok none
    else
      match sectionsGet s 0x0009 with
      | none => .ok none
      | some sec => do
        let resourceCount ← getU32 s.buffer sec.offset
        if optionId ≥ resourceCount then .ok none
        else do
          let entryOffset := sec.offset + 4 + optionId * 20
          let pathStrOff ← getU32 s.buffer (entryOffset + 8)
          let pathStrLen ← getU32 s.buffer (entryOffset + 12)
          let resourcePath ← getString s pathStrOff pathStrLen
          .ok (some resourcePath)

/-- The four running bests of `applyPrecedence`. -/
structure Bests where
  importantBlock : Option MatchCandidate
  allowBest : Option MatchCandidate
  blockBest : Option MatchCandidate
  redirectBest : Option MatchCandidate
deriving DecidableEq, Repr

/-- Keep the higher-priority candidate (strict comparison, first wins). -/
def updBest (best : Option MatchCandidate) (c : MatchCandidate) :
    Option MatchCandidate :=
  match best with
  | none => some c
  | some b => if c.priority > b.priority then some c else some b

/-- The candidate classification loop of `applyPrecedence`. -/
def foldBests : List MatchCandidate → Bests → Bests
  | [], acc => acc
  | c :: rest, acc =>
    let acc :=
      if c.action = 1 then
        if c.isImportant then { acc with importantBlock := updBest acc.importantBlock c }
        else { acc with blockBest := updBest acc.blockBest c }
      else if c.action = 0 then { acc with allowBest := updBest acc.allowBest c }
      else if c.action = 2 then { acc with redirectBest := updBest acc.redirectBest c }
      else acc
    foldBests rest acc

/-- `applyPrecedence(candidates, snapshot)`: IMPORTANT BLOCK, then ALLOW
over BLOCK, then BLOCK, then default ALLOW; redirect directives convert a
winning block into a REDIRECT when their resource resolves (an empty
redirect URL is falsy in the source and is treated as unresolved). -/
def applyPrecedence (s : Snapshot) (candidates : List MatchCandidate) :
    JS MatchResult :=
  if candidates = [] then .ok ⟨.allow, -1, -1, none⟩
  else do
    let b := foldBests candidates ⟨none, none, none, none⟩
    match b.importantBlock with
    | some ib => do
      let rv ← rulesView s
      let listId := Int.ofNat ((rulesListId rv ib.ruleId).getD 0)
      let redirectUrl ← (match b.redirectBest with
        | some rd => getRedirectUrl s rd.ruleId
        | none => pure none)
      match redirectUrl with
      | some u =>
        if u ≠ [] then .ok ⟨.redirect, Int.ofNat ib.ruleId, listId, some u⟩
        else .ok ⟨.block, Int.ofNat ib.ruleId, listId, none⟩
      | none => .ok ⟨.block, Int.ofNat ib.ruleId, listId, none⟩
    | none =>
      match b.allowBest, b.blockBest with
      | some al, some _ => do
        let rv ← rulesView s
        .ok ⟨.allow, Int.ofNat al.ruleId,
          Int.ofNat ((rulesListId rv al.ruleId).getD 0), none⟩
      | _, _ =>
        match b.blockBest with
        | some bl => do
          let rv ← rulesView s
          let listId := Int.ofNat ((rulesListId rv bl.ruleId).getD 0)
          let redirectUrl ← (match b.redirectBest with
            | some rd => getRedirectUrl s rd.ruleId
            | none => pure none)
          match redirectUrl with
          | some u =>
            if u ≠ [] then .ok ⟨.redirect, Int.ofNat bl.ruleId, listId, some u⟩
            else .ok ⟨.block, Int.ofNat bl.ruleId, listId, none⟩
          | none => .ok ⟨.block, Int.ofNat bl.ruleId, listId, none⟩
        | none =>
          match b.allowBest with
          | some al => do
            let rv ← rulesView s
            .ok ⟨.allow, Int.ofNat al.ruleId,
              Int.ofNat ((rulesListId rv al.ruleId).getD 0), none⟩
          | none => .ok ⟨.allow, -1, -1, none⟩

/-- `matchStaticFilters(ctx, snapshot)`. -/
def matchStaticFilters (s : Snapshot) (psl : Option PSLSets)
    (ctx : RequestContext) : JS MatchResult := do
  let c1 ← matchDomainSets s psl ctx
  let c2 ← matchTokenRules s psl ctx
  applyPrecedence s (c1 ++ c2)

/-- `simpleUrlHash(url)`: the 31-ary rolling hash coerced to 32 bits. -/
def simpleUrlHash (url : Str) : Nat :=
  url.foldl (fun h c => (h * 31 + c.toNat) % M32) 0

/-- `buildCacheKey(ctx)`:
`siteETLD1|reqETLD1|type|party|scheme|urlHash`. -/
def buildCacheKey (ctx : RequestContext) : Str :=
  ctx.siteETLD1 ++ ['|'] ++ ctx.reqETLD1 ++ ['|'] ++ natStr ctx.type ++ ['|'] ++
  (if ctx.isThirdParty then ['3'] else ['1']) ++ ['|'] ++
  natStr ctx.scheme ++ ['|'] ++ natStr (simpleUrlHash ctx.url)

/-- The matcher module state: active snapshot, trusted-site set and
decision cache (a `Map` in insertion order). -/
structure MatcherState where
  activeSnapshot : Option Snapshot
  trustedSites : List Str
  decisionCache : List (Str × MatchResult)
deriving DecidableEq, Repr

/-- `decisionCache.get`. -/
def cacheLookup (c : List (Str × MatchResult)) (k : Str) : Option MatchResult :=
  (c.find? (fun p => p.1 = k)).map (fun p => p.2)

/-- `decisionCache.set`. -/
def cacheStore (c : List (Str × MatchResult)) (k : Str) (v : MatchResult) :
    List (Str × MatchResult) :=
  if (c.find? (fun p => p.1 = k)).isSome then
    c.map (fun p => if p.1 = k then (k, v) else p)
  else c ++ [(k, v)]

/-- `matchRequest(ctx)`: trusted-site bypass, decision cache, static
filtering, eviction of the first half of the cache when full, store.
There is no exception handler anywhere on this path. -/
def matchRequest (st : MatcherState) (psl : Option PSLSets)
    (ctx : RequestContext) : JS (MatchResult × MatcherState) :=
  if st.trustedSites.contains ctx.siteETLD1 then
    .ok (⟨.allow, -1, -1, none⟩, st)
  else
    let cacheKey := buildCacheKey ctx
    match cacheLookup st.decisionCache cacheKey with
    | some cached => .ok (cached, st)
    | none =>
      match st.activeSnapshot with
      | none => .ok (⟨.allow, -1, -1, none⟩, st)
      | some snapshot => do
        let result ← matchStaticFilters snapshot psl ctx
        let cache :=
          if st.decisionCache.length ≥ 8192 then
            st.decisionCache.drop ((st.decisionCache.length + 1) / 2)
          else st.decisionCache
        let cache := cacheStore cache cacheKey result
        .ok (result, { st with decisionCache := cache })

-- ===========================================================================
-- Snapshot.load (loader.ts) — validation pipeline
-- ===========================================================================

/-- `validateMagic(data)`. -/
def validateMagic (b : List Nat) : Bool :=
  b.length ≥ 4 ∧ b.getD 0 0 = 0x55 ∧ b.getD 1 0 = 0x42 ∧
    b.getD 2 0 = 0x58 ∧ b.getD 3 0 = 0x31

/-- The section-directory parsing loop of the `Snapshot` constructor. -/
def sectionDirLoop (b : List Nat) (dirOff : Nat) :
    Nat → Nat → List SectionInfo → JS (List SectionInfo)
  | _, 0, acc => .ok acc
  | i, n + 1, acc => do
    let entryOffset := dirOff + i * 24
    let id ← getU16 b entryOffset
    let fl ← getU16 b (entryOffset + 2)
    let off ← getU32 b (entryOffset + 4)
    let len ← getU32 b (entryOffset + 8)
    let ul ← getU32 b (entryOffset + 12)
    let crc ← getU32 b (entryOffset + 16)
    sectionDirLoop b dirOff (i + 1) n (mapSet acc ⟨id, fl, off, len, ul, crc⟩)

/-- The `Snapshot` constructor: header fields and section directory.
No bounds are checked on the parsed entries. -/
def snapshotNew (b : List Nat) : JS Snapshot := do
  let _version ← getU16 b 4
  let _flags ← getU16 b 6
  let _buildId ← getU32 b 24
  let sectionCount ← getU32 b 12
  let sectionDirOffset ← getU32 b 16
  let sections ← sectionDirLoop b sectionDirOffset 0 sectionCount []
  .ok ⟨b, sections⟩

/-- The per-set entry loop of `loadPSLFromSnapshot`. -/
def pslSetLoop (b : List Nat) : Nat → Nat → List Nat → JS (List Nat × Nat)
  | pos, 0, acc => .ok (acc, pos)
  | pos, n + 1, acc => do
    let lo ← getU32 b pos
    let hi ← getU32 b (pos + 4)
    let acc := if lo ≠ 0 ∨ hi ≠ 0 then acc ++ [(hi <<< 32) ||| lo] else acc
    pslSetLoop b (pos + 8) n acc

/-- `loadPSLFromSnapshot(data, offset, length)`: three consecutive hash
sets (exact, wildcard, exception), 20-byte headers. -/
def loadPSLFromSnapshot (b : List Nat) (offset : Nat) : JS PSLSets := do
  let cap1 ← getU32 b offset
  let r1 ← pslSetLoop b (offset + 20) cap1 []
  let cap2 ← getU32 b r1.2
  let r2 ← pslSetLoop b (r1.2 + 20) cap2 []
  let cap3 ← getU32 b r2.2
  let r3 ← pslSetLoop b (r2.2 + 20) cap3 []
  .ok ⟨r1.1, r2.1, r3.1⟩

/-- `Snapshot.load(buffer)`: magic, version, optional CRC32 (computed
over the bytes with the 4-byte CRC field spliced out), constructor,
PSL initialization.  Section bounds are never validated. -/
def load (b : List Nat) : JS (Snapshot × Option PSLSets) :=
  if ¬ validateMagic b then .error (.thrown msgBadMagic)
  else do
    let version ← getU16 b 4
    if version ≠ 1 then .error (.thrown msgBadVersion)
    else do
      let flags ← getU16 b 6
      let _ ← (if flags &&& 1 ≠ 0 then do
          let storedCrc ← getU32 b 28
          let computedCrc := crc32 (b.take 28 ++ b.drop 32)
          if storedCrc ≠ computedCrc then .error (.thrown msgCrcMismatch)
          else pure ()
        else pure ())
      let snapshot ← snapshotNew b
      let psl ← (match sectionsGet snapshot 0x0002 with
        | none => pure none
        | some sec => do
          let p ← loadPSLFromSnapshot b sec.offset
          pure (some p))
      .ok (snapshot, psl)

-- ===========================================================================
-- Specification-side definition for the `$domain=` constraint (C1)
-- ===========================================================================

/-- The `$domain=` constraint as the specification states it: when the
include count is positive the suffix-walk of the document host must
contain an include hash, and the suffix-walk must contain no exclude
hash.  Written from the spec for comparison with
`checkDomainConstraints`, which is translated from the source. -/
def specDomainConstraintSat (psl : Option PSLSets) (siteHost : Str)
    (includes excludes : List Hash64) : Bool :=
  let walk := (walkHostSuffixes psl siteHost).map hashDomain
  (decide (includes.length = 0) || walk.any (fun h => includes.contains h)) &&
    !(walk.any (fun h => excludes.contains h))

-- ===========================================================================
-- Concrete artifacts used by the claim theorems
-- ===========================================================================

/-- A PSL whose only exact TLD rule is `com`. -/
def pslCom : PSLSets :=
  ⟨[hash64ToBig (hashDomain (S "com"))], [], []⟩

/-- Include hashes of the rule `/banner.gif$domain=example.com|~shop.example.com`. -/
def includesC1 : List Hash64 := [hashDomain (S "example.com")]

/-- Exclude hashes of the same rule. -/
def excludesC1 : List Hash64 := [hashDomain (S "shop.example.com")]

/-- Snapshot bytes for C1: a RULES section with one BLOCK rule whose
domain-constraint record holds the include/exclude hashes above. -/
def bufC1 : List Nat :=
  List.replicate 64 0 ++
  -- RULES section at 64: ruleCount = 1, then the SoA arrays
  le32 1 ++
  [1, 0] ++ le16 0 ++ le32 0 ++ [3, 0xff] ++ [0, 0] ++
  le32 0xffffffff ++ le32 0 ++ le32 0xffffffff ++ le16 0 ++ le16 0 ++
  -- DOMAIN_CONSTRAINT_POOL section at 96: blobLen = 20, one record
  le32 20 ++ le16 1 ++ le16 1 ++
  le32 (hashDomain (S "example.com")).lo ++
  le32 (hashDomain (S "example.com")).hi ++
  le32 (hashDomain (S "shop.example.com")).lo ++
  le32 (hashDomain (S "shop.example.com")).hi

def snapC1 : Snapshot :=
  ⟨bufC1, [⟨7, 0, 64, 32, 0, 0⟩, ⟨8, 0, 96, 24, 0, 0⟩]⟩

/-- Request `https://cdn.test/banner.gif` with initiator
`https://example.com/`. -/
def ctxC1a : RequestContext :=
  ⟨S "https://cdn.test/banner.gif", S "cdn.test", S "cdn.test",
   S "example.com", S "example.com", true, 4, 2⟩

/-- The same request with initiator `https://shop.example.com/`. -/
def ctxC1b : RequestContext :=
  ⟨S "https://cdn.test/banner.gif", S "cdn.test", S "cdn.test",
   S "shop.example.com", S "example.com", true, 4, 2⟩

/-- Snapshot bytes for C3: token dictionary and postings lead to rule 0,
whose domain-constraint offset (16) points outside the (absent)
constraint pool. -/
def bufC3 : List Nat :=
  List.replicate 64 0 ++
  -- TOKEN_DICT at 64: capacity 1, count 1, seed 0, reserved 0, one entry
  le32 1 ++ le32 1 ++ le32 0 ++ le32 0 ++
  le32 (hashToken (S "abc")) ++ le32 0 ++ le32 1 ++
  -- TOKEN_POSTINGS at 92: bytesLen 1, varint 0 (rule id 0)
  le32 1 ++ [0] ++
  [0, 0, 0] ++
  -- RULES at 100: ruleCount 1, SoA arrays; domainConstraintOff = 16
  le32 1 ++
  [1, 0] ++ le16 0 ++ le32 0 ++ [3, 0] ++ [0, 0] ++
  le32 0xffffffff ++ le32 16 ++ le32 0xffffffff ++ le16 0 ++ le16 0

def snapC3 : Snapshot :=
  ⟨bufC3, [⟨4, 0, 64, 28, 0, 0⟩, ⟨5, 0, 92, 5, 0, 0⟩, ⟨7, 0, 100, 32, 0, 0⟩]⟩

def ctxC3 : RequestContext :=
  ⟨S "http://x/abc", S "x", S "x", [], [], true, 1, 0⟩

def stC3 : MatcherState := ⟨some snapC3, [], []⟩

/-- Snapshot bytes for C4: a string pool holding `Banner` and a pattern
pool with one case-sensitive pattern `FIND_LIT "Banner"; DONE`. -/
def bufC4 : List Nat :=
  List.replicate 64 0 ++
  -- STRPOOL at 64: bytesLen 6, "Banner"
  le32 6 ++ [66, 97, 110, 110, 101, 114] ++
  -- PATTERN_POOL at 74: patternCount 1, one 24-byte index entry,
  -- progBytesLen 8, program bytes
  le32 1 ++
  le32 0 ++ le16 8 ++ [0, 1] ++ le32 0 ++ le32 0 ++ le32 0 ++ le32 0 ++
  le32 8 ++
  [1] ++ le32 0 ++ le16 6 ++ [7]

def snapC4 : Snapshot :=
  ⟨bufC4, [⟨1, 0, 64, 10, 0, 0⟩, ⟨6, 0, 74, 40, 0, 0⟩]⟩

/-- The case-sensitive pattern entry of `snapC4`. -/
def patC4 : PatternEntry := ⟨0, 8, 0, 1, 0, 0⟩

def urlC4 : Str := S "https://x.test/banner"

/-- Snapshot bytes for C5: a DOMAIN_SETS section whose block table maps
`hashDomain "ads.example"` to the single rule id 7 (capacity 1), followed
by an empty allow table. -/
def bufC5 : List Nat :=
  List.replicate 64 0 ++
  -- block table: capacity 1, count 1, seedLo, seedHi, reserved, one entry
  le32 1 ++ le32 1 ++ le32 0 ++ le32 0 ++ le32 0 ++
  le32 (hashDomain (S "ads.example")).lo ++
  le32 (hashDomain (S "ads.example")).hi ++
  le32 7 ++
  -- allow table: capacity 0 header
  le32 0 ++ le32 0 ++ le32 0 ++ le32 0 ++ le32 0

def snapC5 : Snapshot := ⟨bufC5, [⟨3, 0, 64, 52, 0, 0⟩]⟩

def ctxC5 : RequestContext :=
  ⟨S "https://ads.example/x", S "ads.example", S "ads.example",
   S "news.site", S "news.site", true, 4, 2⟩

/-- Snapshot bytes for C2: string pool `/noop.js`, one redirect resource
pointing at it, and two rules (rule 0 BLOCK, rule 1 REDIRECT_DIRECTIVE
with option id 0). -/
def bufC2 : List Nat :=
  List.replicate 64 0 ++
  -- STRPOOL at 64: bytesLen 8, "/noop.js"
  le32 8 ++ [47, 110, 111, 111, 112, 46, 106, 115] ++
  -- REDIRECT_RESOURCES at 76: resourceCount 1, one 20-byte entry
  le32 1 ++ le32 0 ++ le32 0 ++ le32 0 ++ le32 8 ++ le32 0 ++
  -- RULES at 100: ruleCount 2, SoA arrays
  le32 2 ++
  [1, 2] ++ le16 0 ++ le16 0 ++ [0, 0] ++ le32 0 ++ le32 0 ++
  [3, 3] ++ [0, 0] ++
  le32 0xffffffff ++ le32 0xffffffff ++
  le32 0xffffffff ++ le32 0xffffffff ++
  le32 0xffffffff ++ le32 0 ++
  le16 0 ++ le16 0 ++ le16 0 ++ le16 0

def snapC2 : Snapshot :=
  ⟨bufC2, [⟨1, 0, 64, 12, 0, 0⟩, ⟨9, 0, 76, 24, 0, 0⟩, ⟨7, 0, 100, 56, 0, 0⟩]⟩

/-- One BLOCK candidate and one redirect-directive candidate. -/
def candsC2 : List MatchCandidate := [⟨0, 1, false, 0⟩, ⟨1, 2, false, 0⟩]

/-- Header prefix (bytes 0 through 27) of the C6 buffer: magic, version 1,
flags 1 (CRC present), headerBytes 64, sectionCount 0, dirOffset 64,
dirBytes 0, buildId 0. -/
def prefixC6 : List Nat :=
  [0x55, 0x42, 0x58, 0x31] ++ le16 1 ++ le16 1 ++ le32 64 ++ le32 0 ++
  le32 64 ++ le32 0 ++ le32 0

/-- The CRC the loader actually verifies: over the file with the 4-byte
CRC field spliced out (the file ends right after the CRC field). -/
def excisedCrcC6 : Nat := crc32 prefixC6

/-- A CRC-flagged snapshot whose stored CRC is the spliced-out CRC. -/
def bufC6 : List Nat := prefixC6 ++ le32 excisedCrcC6

/-- The same bytes with the CRC field zeroed instead of spliced out. -/
def zeroedC6 : List Nat := prefixC6 ++ [0, 0, 0, 0]

/-- Buffer for C7: valid magic and version, no CRC, one section-directory
entry whose offset (9999) lies far outside the 88-byte buffer. -/
def bufC7 : List Nat :=
  [0x55, 0x42, 0x58, 0x31] ++ le16 1 ++ le16 0 ++ le32 64 ++ le32 1 ++
  le32 64 ++ le32 24 ++ le32 0 ++ le32 0 ++ List.replicate 32 0 ++
  -- section entry at 64: id 1 (STRPOOL), flags 0, offset 9999, length 8
  le16 1 ++ le16 0 ++ le32 9999 ++ le32 8 ++ le32 0 ++ le32 0 ++ le32 0

/-- An empty snapshot (no sections), used by the C10 witness. -/
def snapC10 : Snapshot := ⟨List.replicate 64 0, []⟩

def ctxC10a : RequestContext :=
  ⟨S "Aa", S "h.test", S "h.test", S "site.test", S "site.test",
   false, 1, 0⟩

def ctxC10b : RequestContext :=
  ⟨S "BB", S "h.test", S "h.test", S "site.test", S "site.test",
   false, 1, 0⟩

def stC10 : MatcherState := ⟨some snapC10, [], []⟩

-- ===========================================================================
-- Candidate-set predicates used by the precedence claims
-- ===========================================================================

/-- Some candidate is an IMPORTANT BLOCK. -/
def hasImportantBlock (cands : List MatchCandidate) : Prop :=
  ∃ c ∈ cands, c.action = 1 ∧ c.isImportant = true

/-- Some candidate is an ALLOW. -/
def hasAllowCand (cands : List MatchCandidate) : Prop :=
  ∃ c ∈ cands, c.action = 0

/-- Some candidate is a BLOCK (important or not). -/
def hasBlockCand (cands : List MatchCandidate) : Prop :=
  ∃ c ∈ cands, c.action = 1

instance (cands : List MatchCandidate) : Decidable (hasImportantBlock cands) := by
  unfold hasImportantBlock; infer_instance

instance (cands : List MatchCandidate) : Decidable (hasAllowCand cands) := by
  unfold hasAllowCand; infer_instance

instance (cands : List MatchCandidate) : Decidable (hasBlockCand cands) := by
  unfold hasBlockCand; infer_instance

def snapC7 : Snapshot := ⟨bufC7, [⟨1, 0, 9999, 8, 0, 0⟩]⟩

-- ===========================================================================
-- Claim theorems
-- ===========================================================================

set_option maxRecDepth 4000

/-- C1: the claim says a `$domain=` constraint is evaluated against the
suffix-walk of the document host, and that for the rule
`/banner.gif$domain=example.com|~shop.example.com` a request with
initiator `https://shop.example.com/` is allowed.  The code compares only
`hashDomain(ctx.siteETLD1)` against the stored hashes: with the site host
`shop.example.com` (whose eTLD+1 is `example.com`) the exclude hash is
never matched and the constraint is reported satisfied, so the request is
blocked, while the specification's suffix-walk semantics reject it. -/
theorem c1_domain_constraint_code_bug :
    checkDomainConstraints snapC1 0 ctxC1b = .ok true ∧
    specDomainConstraintSat (some pslCom) ctxC1b.siteHost includesC1 excludesC1 = false ∧
    checkDomainConstraints snapC1 0 ctxC1a = .ok true ∧
    specDomainConstraintSat (some pslCom) ctxC1a.siteHost includesC1 excludesC1 = true ∧
    getETLD1pure (some pslCom) ctxC1b.siteHost = ctxC1b.siteETLD1 := by
  decide

/-- C3: the claim says internal matcher errors are caught inside the
matcher and surfaced as ALLOW.  `matchRequest` has no handler: a rule
whose domain-constraint offset points outside the constraint pool makes
the DataView construction inside `checkDomainConstraints` throw a
RangeError, which propagates out of `matchRequest` to the caller. -/
theorem c3_fail_open_code_bug :
    matchRequest stC3 none ctxC3 = .error .range := by decide

/-- C4: the claim says a pattern with the case-sensitive flag is compared
against the URL exactly.  `verifyPattern` lowercases both the URL and the
stored literal unconditionally and never consults the flag: the pattern
below has `CASE_SENSITIVE` set and the literal `Banner`, yet verification
succeeds on a URL that contains only `banner` (the exact-case search
finds nothing). -/
theorem c4_case_flag_code_bug :
    patC4.flags &&& 1 = 1 ∧
    (do
      let pool ← patternPool snapC4
      getPattern pool 0 : JS (Option PatternEntry)) = .ok (some patC4) ∧
    getString snapC4 0 6 = .ok (S "Banner") ∧
    (do
      let pool ← patternPool snapC4
      let pat ← getPattern pool 0
      verifyPattern snapC4 none urlC4 pat pool : JS Bool) = .ok true ∧
    idxOfSubFrom urlC4 (S "Banner") 0 = none := by decide

/-- C5: the claim says a domain-index lookup yields a posting list and
every rule id in it is emitted.  `DomainHashSet.lookup` stores and
returns a single u32 rule id per domain hash, and candidate gathering
emits exactly one candidate per hit, so a second host-only rule for the
same domain cannot participate. -/
theorem c5_domain_posting_code_bug :
    (do
      let bs ← domainBlockSet snapC5
      dhsLookup bs (hashDomain (S "ads.example")) : JS (Option Nat)) = .ok (some 7) ∧
    matchDomainSets snapC5 none ctxC5 = .ok [⟨7, 1, false, 0⟩] := by decide

/-- C7: the claim says any section-directory bound violation causes the
snapshot to be rejected at load.  `load` never checks section bounds: a
buffer whose only section entry points 9999 bytes past the end is
accepted, and the first accessor that touches it then throws. -/
theorem c7_load_bounds_code_bug :
    load bufC7 = .ok (snapC7, none) ∧
    sectionsGet snapC7 1 = some ⟨1, 0, 9999, 8, 0, 0⟩ ∧
    9999 + 8 > bufC7.length ∧
    strPoolView snapC7 = .error .range := by decide

/-- C6 counterexample: a CRC-flagged buffer whose stored CRC equals the
CRC computed over the file with the CRC field spliced out is accepted by
`load`, although the stored value differs from the CRC computed over the
file with the CRC field zeroed — refuting the claim as stated. -/
theorem c6_counterexample :
    load bufC6 = .ok (⟨bufC6, []⟩, none) ∧
    getU32 bufC6 28 = .ok excisedCrcC6 ∧
    zeroedC6 = bufC6.take 28 ++ [0, 0, 0, 0] ++ bufC6.drop 32 ∧
    excisedCrcC6 ≠ crc32 zeroedC6 := by decide

/-- C2 counterexample: with one plain BLOCK candidate and one
redirect-directive candidate whose resource resolves, the decision is
REDIRECT, not BLOCK, refuting the claim's "otherwise if any BLOCK
candidate exists the decision is BLOCK". -/
theorem c2_counterexample :
    applyPrecedence snapC2 candsC2 = .ok ⟨.redirect, 0, 0, some (S "/noop.js")⟩ ∧
    hasBlockCand candsC2 ∧ ¬ hasImportantBlock candsC2 ∧
    ¬ hasAllowCand candsC2 ∧
    (MatchDecision.redirect ≠ MatchDecision.block) := by decide

/-- C9 counterexample: for `http://a?x=1#f?x=2` with removal key `x`,
one application yields `http://a#f?x=2` and a second application strips
the `?x=2` hiding in the fragment, yielding `http://a#f` — sanitization
is not idempotent when the fragment contains a `?`. -/
theorem c9_counterexample :
    removeQueryParams (removeQueryParams (S "http://a?x=1#f?x=2") [S "x"]) [S "x"] ≠
      removeQueryParams (S "http://a?x=1#f?x=2") [S "x"] := by decide

/-- C8 counterexample: for the host `a.b...` (with no PSL loaded),
`getETLD1` returns `b.`, and applying `getETLD1` to that result returns
`b` — the function is not idempotent on hosts ending in repeated dots. -/
theorem c8_counterexample :
    (getETLD1 none [] (S "a.b...")).1 = S "b." ∧
    (getETLD1 none (getETLD1 none [] (S "a.b...")).2
      (getETLD1 none [] (S "a.b...")).1).1 = S "b" ∧
    (S "b" : Str) ≠ S "b." := by decide


-- ===========================================================================
-- C2: precedence ladder (amended)
-- ===========================================================================

theorem updBest_ne_none (b : Option MatchCandidate) (c : MatchCandidate) :
    updBest b c ≠ none := by
  cases b <;> simp [updBest] <;> split <;> simp

theorem foldBests_ib_none (l : List MatchCandidate) (acc : Bests) :
    (foldBests l acc).importantBlock = none ↔
      acc.importantBlock = none ∧
        ∀ c ∈ l, ¬ (c.action = 1 ∧ c.isImportant = true) := by
  induction l generalizing acc with
  | nil => simp [foldBests]
  | cons c rest ih =>
    by_cases h1 : c.action = 1 <;> by_cases h2 : c.isImportant = true <;>
      by_cases h0 : c.action = 0 <;> by_cases h3 : c.action = 2 <;>
      · simp only [foldBests, h1, h2, h0, h3, if_true, if_false,
          reduceIte, List.forall_mem_cons]
        rw [ih]
        simp [h1, h2, h0, h3, updBest_ne_none]
        try tauto

theorem foldBests_allow_none (l : List MatchCandidate) (acc : Bests) :
    (foldBests l acc).allowBest = none ↔
      acc.allowBest = none ∧ ∀ c ∈ l, ¬ (c.action = 0) := by
  induction l generalizing acc with
  | nil => simp [foldBests]
  | cons c rest ih =>
    by_cases h1 : c.action = 1 <;> by_cases h2 : c.isImportant = true <;>
      by_cases h0 : c.action = 0 <;> by_cases h3 : c.action = 2 <;>
      · simp only [foldBests, h1, h2, h0, h3, if_true, if_false,
          reduceIte, List.forall_mem_cons]
        rw [ih]
        simp [h1, h2, h0, h3, updBest_ne_none]
        try tauto

theorem foldBests_block_none (l : List MatchCandidate) (acc : Bests) :
    (foldBests l acc).blockBest = none ↔
      acc.blockBest = none ∧
        ∀ c ∈ l, ¬ (c.action = 1 ∧ c.isImportant = false) := by
  induction l generalizing acc with
  | nil => simp [foldBests]
  | cons c rest ih =>
    by_cases h1 : c.action = 1 <;> by_cases h2 : c.isImportant = true <;>
      by_cases h0 : c.action = 0 <;> by_cases h3 : c.action = 2 <;>
      · simp only [foldBests, h1, h2, h0, h3, if_true, if_false,
          reduceIte, List.forall_mem_cons]
        rw [ih]
        simp [h1, h2, h0, h3, updBest_ne_none]
        try tauto

theorem bind_ok {α β : Type} {m : JS α} {k : α → JS β} {r : β} :
    (m >>= k) = .ok r ↔ ∃ a, m = .ok a ∧ k a = .ok r := by
  cases m <;> simp [Bind.bind, Except.bind]

/-- C2 (amended): among surviving candidates, an IMPORTANT BLOCK forces
BLOCK or REDIRECT (never ALLOW); otherwise an ALLOW candidate forces
ALLOW; otherwise a BLOCK candidate forces BLOCK — or REDIRECT when a
matching redirect directive's resource resolves; otherwise the decision
is ALLOW.  (The claim as stated omits the REDIRECT possibility of the
plain-BLOCK case; see `c2_counterexample`.) -/
theorem c2_precedence_amended (s : Snapshot) (cands : List MatchCandidate)
    (r : MatchResult) (h : applyPrecedence s cands = .ok r) :
    (hasImportantBlock cands → (r.decision = .block ∨ r.decision = .redirect)) ∧
    (¬ hasImportantBlock cands → hasAllowCand cands → r.decision = .allow) ∧
    (¬ hasImportantBlock cands → ¬ hasAllowCand cands → hasBlockCand cands →
      (r.decision = .block ∨ r.decision = .redirect)) ∧
    (¬ hasImportantBlock cands → ¬ hasAllowCand cands → ¬ hasBlockCand cands →
      r.decision = .allow) := by
  unfold applyPrecedence at h
  by_cases hnil : cands = []
  · subst hnil
    simp only [if_pos rfl] at h
    cases h
    refine ⟨fun hc => ?_, fun _ _ => rfl, fun _ _ hc => ?_, fun _ _ _ => rfl⟩
    · rcases hc with ⟨c, hc, _⟩; simp at hc
    · rcases hc with ⟨c, hc, _⟩; simp at hc
  · rw [if_neg hnil] at h
    simp only [] at h
    generalize hB : foldBests cands ⟨none, none, none, none⟩ = b at h
    have hibn : ¬ hasImportantBlock cands ↔ b.importantBlock = none := by
      rw [← hB, foldBests_ib_none]
      simp [hasImportantBlock]
    have haln : ¬ hasAllowCand cands ↔ b.allowBest = none := by
      rw [← hB, foldBests_allow_none]
      simp [hasAllowCand]
    have hbln : b.blockBest = none ↔
        ∀ c ∈ cands, ¬ (c.action = 1 ∧ c.isImportant = false) := by
      rw [← hB, foldBests_block_none]; simp
    rcases hib : b.importantBlock with _ | ib
    · -- no important block
      rw [hib] at h
      have hnimp : ¬ hasImportantBlock cands := hibn.mpr hib
      have hnoblock : b.blockBest = none → ¬ hasBlockCand cands := by
        intro hbl hc
        rcases hc with ⟨c, hcm, hc1⟩
        rcases Bool.eq_false_or_eq_true c.isImportant with h2 | h2
        · exact hnimp ⟨c, hcm, hc1, h2⟩
        · exact (hbln.mp hbl) c hcm ⟨hc1, h2⟩
      rcases hal : b.allowBest with _ | al <;> rcases hbl : b.blockBest with _ | bl
      · -- none / none: default allow
        rw [hal, hbl] at h
        simp only [] at h
        cases h
        exact ⟨fun hc => absurd hc hnimp, fun _ hc => absurd hc (haln.mpr hal),
          fun _ _ hc => absurd hc (hnoblock hbl), fun _ _ _ => rfl⟩
      · -- allow none, block some: block or redirect
        rw [hal, hbl] at h
        simp only [] at h
        rcases bind_ok.mp h with ⟨rv, hrv, h⟩
        rcases bind_ok.mp h with ⟨ru, hru, h⟩
        have hdec : r.decision = .block ∨ r.decision = .redirect := by
          rcases ru with _ | u
          · simp only [] at h; cases h; simp
          · simp only [] at h
            by_cases hu : u = []
            · rw [if_neg (by simp [hu])] at h; cases h; simp
            · rw [if_pos (by simp [hu])] at h; cases h; simp
        have hblk : hasBlockCand cands := by
          have hne : ¬ (b.blockBest = none) := by simp [hbl]
          rw [hbln] at hne
          push_neg at hne
          rcases hne with ⟨c, hcm, hc1, _⟩
          exact ⟨c, hcm, hc1⟩
        exact ⟨fun hc => absurd hc hnimp, fun _ hc => absurd hc (haln.mpr hal),
          fun _ _ _ => hdec, fun _ _ hc => (hc hblk).elim⟩
      · -- allow some, block none: allow
        rw [hal, hbl] at h
        simp only [] at h
        rcases bind_ok.mp h with ⟨rv, hrv, h⟩
        cases h
        refine ⟨fun hc => absurd hc hnimp, fun _ _ => rfl,
          fun _ _ hc => absurd hc (hnoblock hbl), fun _ hc _ => ?_⟩
        exact absurd (haln.mp hc) (by simp [hal])
      · -- allow some, block some: allow wins
        rw [hal, hbl] at h
        simp only [] at h
        rcases bind_ok.mp h with ⟨rv, hrv, h⟩
        cases h
        have hha : hasAllowCand cands := by
          by_contra hc
          rw [haln] at hc
          simp [hal] at hc
        exact ⟨fun hc => absurd hc hnimp, fun _ _ => rfl,
          fun _ hc _ => (hc hha).elim, fun _ hc _ => (hc hha).elim⟩
    · -- important block exists
      rw [hib] at h
      have himp : hasImportantBlock cands := by
        by_contra hn
        rw [hibn] at hn
        rw [hn] at hib
        cases hib
      rcases bind_ok.mp h with ⟨rv, hrv, h⟩
      rcases bind_ok.mp h with ⟨ru, hru, h⟩
      have hdec : r.decision = .block ∨ r.decision = .redirect := by
        rcases ru with _ | u
        · simp only [] at h; cases h; simp
        · simp only [] at h
          by_cases hu : u = []
          · rw [if_neg (by simp [hu])] at h; cases h; simp
          · rw [if_pos (by simp [hu])] at h; cases h; simp
      exact ⟨fun _ => hdec, fun hn => (hn himp).elim,
        fun hn _ _ => (hn himp).elim, fun hn _ _ => (hn himp).elim⟩

def candsC2w : List MatchCandidate := [⟨0, 1, true, 0⟩]

def resC2w : MatchResult := ⟨.block, 0, 0, none⟩

theorem c2_precedence_amended_witness :
    applyPrecedence snapC10 candsC2w = .ok resC2w ∧
    hasImportantBlock candsC2w ∧
    (resC2w.decision = .block ∨ resC2w.decision = .redirect) :=
  ⟨by decide, by decide,
    (c2_precedence_amended snapC10 candsC2w resC2w (by decide)).1 (by decide)⟩

-- ===========================================================================
-- C6: CRC validation (amended)
-- ===========================================================================

/-- C6 (amended): for a snapshot whose header has the CRC flag set (and
valid magic/version), load succeeds only if the stored CRC32 equals the
CRC32 computed over the file with the 4-byte CRC field spliced out (its
position contributes nothing to the checksum, rather than four zero
bytes), and a mismatch against that spliced-out CRC is rejected with the
CRC-mismatch error. -/
theorem c6_crc_excised (b : List Nat) (fl stored : Nat)
    (hmagic : validateMagic b = true)
    (hver : getU16 b 4 = .ok 1)
    (hfl : getU16 b 6 = .ok fl)
    (hbit : fl &&& 1 ≠ 0)
    (hstored : getU32 b 28 = .ok stored) :
    ((load b).isOk = true → stored = crc32 (b.take 28 ++ b.drop 32)) ∧
    (stored ≠ crc32 (b.take 28 ++ b.drop 32) →
      load b = .error (.thrown msgCrcMismatch)) := by
  have hload : stored ≠ crc32 (b.take 28 ++ b.drop 32) →
      load b = .error (.thrown msgCrcMismatch) := by
    intro hne
    unfold load
    simp only [hmagic, not_true, if_false, Bool.not_true]
    rw [hver]
    simp only [Bind.bind, Except.bind, if_neg (by decide : ¬ (1 : Nat) ≠ 1)]
    rw [hfl]
    simp only [if_pos hbit]
    rw [hstored]
    simp only [if_pos hne]
  constructor
  · intro hok
    by_contra hne
    rw [hload hne] at hok
    simp [Except.isOk, Except.toBool] at hok
  · exact hload

theorem c6_crc_excised_witness :
    ((load bufC6).isOk = true →
      excisedCrcC6 = crc32 (bufC6.take 28 ++ bufC6.drop 32)) ∧
    (excisedCrcC6 ≠ crc32 (bufC6.take 28 ++ bufC6.drop 32) →
      load bufC6 = .error (.thrown msgCrcMismatch)) :=
  c6_crc_excised bufC6 1 excisedCrcC6 (by decide) (by decide) (by decide)
    (by decide) (by decide)

-- ===========================================================================
-- C10: decision-cache replay on fingerprint collision
-- ===========================================================================

theorem find?_store_map (k : Str) (v : MatchResult) :
    ∀ c : List (Str × MatchResult),
      (c.find? (fun p => p.1 = k)).isSome = true →
      (c.map (fun p => if p.1 = k then (k, v) else p)).find?
        (fun p => p.1 = k) = some (k, v)
  | [], h => by simp at h
  | p :: rest, h => by
    by_cases hp : p.1 = k
    · simp [List.find?_cons, hp]
    · rw [List.find?_cons_of_neg _ (by simp [hp])] at h
      simp only [List.map_cons, if_neg hp]
      rw [List.find?_cons_of_neg _ (by simp [hp])]
      exact find?_store_map k v rest h

theorem cacheLookup_cacheStore_self (c : List (Str × MatchResult)) (k : Str)
    (v : MatchResult) : cacheLookup (cacheStore c k v) k = some v := by
  unfold cacheStore
  by_cases hf : (c.find? (fun p => p.1 = k)).isSome
  · rw [if_pos hf]
    unfold cacheLookup
    rw [find?_store_map k v c hf]
    rfl
  · rw [if_neg hf]
    unfold cacheLookup
    have hnone : c.find? (fun p => p.1 = k) = none := by
      cases h : c.find? (fun p => p.1 = k) with
      | none => rfl
      | some x => rw [h] at hf; simp at hf
    rw [List.find?_append, hnone]
    simp [List.find?_cons]

/-- C10: under one active snapshot and trusted-site set, if two requests
build the same cache key (equal siteETLD1, reqETLD1, type, party bit,
scheme and 32-bit URL fingerprint), the call after the first replays the
first call's stored MatchResult — even when the URLs are different
strings that merely collide in `simpleUrlHash`. -/
theorem c10_cache_replay (st : MatcherState) (psl : Option PSLSets)
    (ctx1 ctx2 : RequestContext) (snap : Snapshot) (r1 : MatchResult)
    (st1 : MatcherState)
    (hsnap : st.activeSnapshot = some snap)
    (ht1 : st.trustedSites.contains ctx1.siteETLD1 = false)
    (ht2 : st.trustedSites.contains ctx2.siteETLD1 = false)
    (hkey : buildCacheKey ctx1 = buildCacheKey ctx2)
    (h1 : matchRequest st psl ctx1 = .ok (r1, st1)) :
    matchRequest st1 psl ctx2 = .ok (r1, st1) := by
  unfold matchRequest at h1 ⊢
  rw [ht1] at h1
  simp only [Bool.false_eq_true, if_false] at h1
  rcases hc : cacheLookup st.decisionCache (buildCacheKey ctx1) with _ | cached
  · rw [hc] at h1
    rw [hsnap] at h1
    rcases bind_ok.mp h1 with ⟨res, hres, h1⟩
    cases h1
    simp only [ht2, Bool.false_eq_true, if_false, ← hkey,
      cacheLookup_cacheStore_self]
  · rw [hc] at h1
    cases h1
    simp only [ht2, Bool.false_eq_true, if_false, ← hkey, hc]

def r10 : MatchResult := ⟨.allow, -1, -1, none⟩

def st1C10 : MatcherState := ⟨some snapC10, [], [(buildCacheKey ctxC10a, r10)]⟩

theorem c10_cache_replay_witness :
    ctxC10a.url ≠ ctxC10b.url ∧
    simpleUrlHash ctxC10a.url = simpleUrlHash ctxC10b.url ∧
    buildCacheKey ctxC10a = buildCacheKey ctxC10b ∧
    matchRequest stC10 none ctxC10a = .ok (r10, st1C10) ∧
    matchRequest st1C10 none ctxC10b = .ok (r10, st1C10) :=
  ⟨by decide, by decide, by decide, by decide,
    c10_cache_replay stC10 none ctxC10a ctxC10b snapC10 r10 st1C10 rfl
      (by decide) (by decide) (by decide) (by decide)⟩

-- ===========================================================================
-- C9: removeparam idempotence (amended)
-- ===========================================================================

-- toolkit: first occurrences
theorem idxOfFrom_zero (s : Str) (c : Char) :
    idxOfFrom s c 0 = List.findIdx? (fun x => x = c) s := by
  simp [idxOfFrom]

theorem fIdx_append_first (a b : Str) (c : Char) (ha : c ∉ a) :
    List.findIdx? (fun x => x = c) (a ++ c :: b) = some a.length := by
  induction a with
  | nil => simp [List.findIdx?_cons]
  | cons x a' ih =>
    have hx : ¬ (x = c) := fun hxc => ha (hxc ▸ List.mem_cons_self x a')
    have ha' : c ∉ a' := fun hmem => ha (List.mem_cons_of_mem x hmem)
    rw [List.cons_append, List.findIdx?_cons]
    simp only [hx, decide_False, if_false, List.findIdx?_succ]
    rw [ih ha']
    simp

theorem idxOfFrom_none_iff (s : Str) (c : Char) :
    idxOfFrom s c 0 = none ↔ c ∉ s := by
  rw [idxOfFrom_zero, List.findIdx?_eq_none_iff]
  constructor
  · intro h hmem
    have := h c hmem
    simp at this
  · intro h x hx
    simp only [decide_eq_false_iff_not]
    intro hxc
    exact h (hxc ▸ hx)

theorem fIdx_decomp (s : Str) (c : Char) (i : Nat)
    (h : List.findIdx? (fun x => x = c) s = some i) :
    c ∉ s.take i ∧ (s.take i).length = i ∧
      s = s.take i ++ c :: s.drop (i + 1) := by
  induction s generalizing i with
  | nil => simp [List.findIdx?] at h
  | cons x xs ih =>
    rw [List.findIdx?_cons] at h
    by_cases hx : x = c
    · simp only [hx, decide_True, if_true, Option.some.injEq] at h
      subst h
      subst hx
      simp
    · simp only [hx, decide_False, if_false, List.findIdx?_succ] at h
      rcases Option.map_eq_some'.mp h with ⟨j, hj, hij⟩
      subst hij
      rcases ih j hj with ⟨h1, h2, h3⟩
      refine ⟨?_, ?_, ?_⟩
      · intro hmem
        rcases List.mem_cons.mp hmem with hcx | hcx
        · exact hx hcx.symm
        · exact h1 hcx
      · simp [h2]
      · show x :: xs = (x :: xs.take j) ++ c :: xs.drop (j + 1)
        rw [List.cons_append]
        exact congrArg (x :: ·) h3

theorem idxOfFrom_decomp (s : Str) (c : Char) (i : Nat)
    (h : idxOfFrom s c 0 = some i) :
    c ∉ s.take i ∧ (s.take i).length = i ∧
      s = s.take i ++ c :: s.drop (i + 1) :=
  fIdx_decomp s c i (by rw [← idxOfFrom_zero]; exact h)

theorem idxOfFrom_append_first (a b : Str) (c : Char) (ha : c ∉ a) :
    idxOfFrom (a ++ c :: b) c 0 = some a.length := by
  rw [idxOfFrom_zero]
  exact fIdx_append_first a b c ha

theorem idxOfFrom_from_ge (s : Str) (c : Char) (g st : Nat)
    (h : idxOfFrom s c 0 = some g) (hst : st ≤ g) :
    idxOfFrom s c st = some g := by
  rcases idxOfFrom_decomp s c g h with ⟨h1, h2, h3⟩
  have hlen : st ≤ (s.take g).length := by rw [h2]; exact hst
  unfold idxOfFrom
  have hdrop : s.drop st = (s.take g).drop st ++ c :: s.drop (g + 1) := by
    conv_lhs => rw [h3]
    rw [List.drop_append_of_le_length hlen]
  rw [hdrop]
  rw [fIdx_append_first _ _ _ (fun hm => h1 (List.mem_of_mem_drop hm))]
  simp only [Option.map_some', List.length_drop, h2]
  congr 1
  omega

theorem idxOfFrom_from_none (s : Str) (c : Char) (st : Nat)
    (h : idxOfFrom s c 0 = none) :
    idxOfFrom s c st = none := by
  have hmem : c ∉ s := (idxOfFrom_none_iff s c).mp h
  unfold idxOfFrom
  have : List.findIdx? (fun x => x = c) (s.drop st) = none := by
    rw [List.findIdx?_eq_none_iff]
    intro x hx
    simp only [decide_eq_false_iff_not]
    intro hxc
    exact hmem (hxc ▸ List.mem_of_mem_drop hx)
  rw [this]
  rfl


-- toolkit: split / join
theorem splitOnChar_ne_nil (c : Char) (s : Str) : splitOnChar c s ≠ [] := by
  induction s with
  | nil => simp [splitOnChar]
  | cons x xs ih =>
    unfold splitOnChar
    by_cases hx : x = c
    · simp [hx]
    · simp only [hx, if_false]
      rcases hr : splitOnChar c xs with _ | ⟨h, t⟩
      · exact absurd hr ih
      · simp

theorem splitOnChar_sep_free (c : Char) (s : Str) :
    ∀ p ∈ splitOnChar c s, c ∉ p := by
  induction s with
  | nil =>
    intro p hp
    simp [splitOnChar] at hp
    simp [hp]
  | cons x xs ih =>
    intro p hp
    unfold splitOnChar at hp
    by_cases hx : x = c
    · simp only [hx, if_true, reduceIte, List.mem_cons] at hp
      rcases hp with hp | hp
      · simp [hp]
      · exact ih p hp
    · simp only [hx, if_false] at hp
      rcases hr : splitOnChar c xs with _ | ⟨h, t⟩
      · exact absurd hr (splitOnChar_ne_nil c xs)
      · rw [hr] at hp
        simp only [List.mem_cons] at hp
        rcases hp with hp | hp
        · subst hp
          intro hmem
          rcases List.mem_cons.mp hmem with hc | hc
          · exact hx hc.symm
          · exact ih h (hr ▸ List.mem_cons_self h t) hc
        · exact ih p (hr ▸ List.mem_cons_of_mem h hp)

theorem splitOnChar_chars (c : Char) (s : Str) :
    ∀ p ∈ splitOnChar c s, ∀ x ∈ p, x ∈ s := by
  induction s with
  | nil =>
    intro p hp x hx
    simp [splitOnChar] at hp
    subst hp
    simp at hx
  | cons y ys ih =>
    intro p hp x hx
    unfold splitOnChar at hp
    by_cases hy : y = c
    · simp only [hy, if_true, reduceIte, List.mem_cons] at hp
      rcases hp with hp | hp
      · subst hp; simp at hx
      · exact List.mem_cons_of_mem y (ih p hp x hx)
    · simp only [hy, if_false] at hp
      rcases hr : splitOnChar c ys with _ | ⟨h, t⟩
      · exact absurd hr (splitOnChar_ne_nil c ys)
      · rw [hr] at hp
        rcases List.mem_cons.mp hp with hp | hp
        · subst hp
          rcases List.mem_cons.mp hx with hxy | hxh
          · exact hxy ▸ List.mem_cons_self y ys
          · exact List.mem_cons_of_mem y
              (ih h (hr ▸ List.mem_cons_self h t) x hxh)
        · exact List.mem_cons_of_mem y (ih p (hr ▸ List.mem_cons_of_mem h hp) x hx)

theorem splitOnChar_no_sep (c : Char) (x : Str) (hx : c ∉ x) :
    splitOnChar c x = [x] := by
  induction x with
  | nil => rfl
  | cons y ys ih =>
    have hy : ¬ (y = c) := fun h => hx (h ▸ List.mem_cons_self y ys)
    have hys : c ∉ ys := fun h => hx (List.mem_cons_of_mem y h)
    unfold splitOnChar
    simp only [hy, if_false]
    rw [ih hys]

theorem splitOnChar_cons (c x : Char) (xs : Str) :
    splitOnChar c (x :: xs) =
      if x = c then [] :: splitOnChar c xs
      else
        match splitOnChar c xs with
        | h :: t => (x :: h) :: t
        | [] => [[x]] := rfl

theorem splitOnChar_cons_sep (c : Char) (x t : Str) (hx : c ∉ x) :
    splitOnChar c (x ++ c :: t) = x :: splitOnChar c t := by
  induction x with
  | nil =>
    rw [List.nil_append, splitOnChar_cons]
    simp
  | cons y ys ih =>
    have hy : ¬ (y = c) := fun h => hx (h ▸ List.mem_cons_self y ys)
    have hys : c ∉ ys := fun h => hx (List.mem_cons_of_mem y h)
    rw [List.cons_append, splitOnChar_cons]
    simp only [hy, if_false]
    rw [ih hys]

theorem joinChar_cons₂ (c : Char) (x y : Str) (rest : List Str) :
    joinChar c (x :: y :: rest) = x ++ c :: joinChar c (y :: rest) := by
  unfold joinChar
  rw [List.intersperse_cons_cons]
  simp

theorem joinChar_single (c : Char) (x : Str) : joinChar c [x] = x := by
  simp [joinChar]

theorem splitOnChar_joinChar (c : Char) (L : List Str) (hne : L ≠ [])
    (hfree : ∀ p ∈ L, c ∉ p) : splitOnChar c (joinChar c L) = L := by
  induction L with
  | nil => exact absurd rfl hne
  | cons x rest ih =>
    rcases rest with _ | ⟨y, rest'⟩
    · rw [joinChar_single]
      exact splitOnChar_no_sep c x (hfree x (List.mem_cons_self x []))
    · rw [joinChar_cons₂]
      rw [splitOnChar_cons_sep c x _ (hfree x (List.mem_cons_self x _))]
      rw [ih (by simp) (fun p hp => hfree p (List.mem_cons_of_mem x hp))]

theorem joinChar_chars (c : Char) (L : List Str) :
    ∀ x ∈ joinChar c L, x = c ∨ ∃ p ∈ L, x ∈ p := by
  induction L with
  | nil => intro x hx; simp [joinChar] at hx
  | cons a rest ih =>
    rcases rest with _ | ⟨b, rest'⟩
    · intro x hx
      rw [joinChar_single] at hx
      exact Or.inr ⟨a, List.mem_cons_self a [], hx⟩
    · intro x hx
      rw [joinChar_cons₂] at hx
      rcases List.mem_append.mp hx with hx | hx
      · exact Or.inr ⟨a, List.mem_cons_self a _, hx⟩
      · rcases List.mem_cons.mp hx with hx | hx
        · exact Or.inl hx
        · rcases ih x hx with h | ⟨p, hp, hxp⟩
          · exact Or.inl h
          · exact Or.inr ⟨p, List.mem_cons_of_mem a hp, hxp⟩


theorem removeQueryParams_no_q (x : Str) (keys : List Str)
    (h : idxOfFrom x '?' 0 = none) : removeQueryParams x keys = x := by
  unfold removeQueryParams
  rw [h]

theorem removeQueryParams_fixed (keys : List Str) (base fragment : Str)
    (L : List Str)
    (hbase : '?' ∉ base)
    (hLfree : ∀ p ∈ L, '&' ∉ p)
    (hLkeys : ∀ p ∈ L, keys.contains (pairKey p) = false)
    (hLhash : '#' ∉ joinChar '&' L)
    (hfrag : fragment = [] ∨ ∃ frest, fragment = '#' :: frest) :
    removeQueryParams (base ++ '?' :: (joinChar '&' L ++ fragment)) keys =
      base ++ '?' :: (joinChar '&' L ++ fragment) := by
  set J := joinChar '&' L with hJ
  set r := base ++ '?' :: (J ++ fragment) with hr
  have hq : idxOfFrom r '?' 0 = some base.length :=
    idxOfFrom_append_first base (J ++ fragment) '?' hbase
  have hquery : ∀ qEnd, r.take qEnd = base ++ '?' :: J →
      (r.take qEnd).drop (base.length + 1) = J := by
    intro qEnd hq2
    rw [hq2]
    have : base ++ '?' :: J = (base ++ ['?']) ++ J := by simp
    rw [this, List.drop_left' (by simp)]
  unfold removeQueryParams
  rw [hq]
  dsimp only
  rcases hfrag with hfe | ⟨frest, hfc⟩
  · -- no fragment
    have hh : idxOfFrom r '#' base.length = none := by
      unfold idxOfFrom
      have hdrop : r.drop base.length = '?' :: (J ++ fragment) :=
        List.drop_left base _
      rw [hdrop, List.findIdx?_eq_none_iff.mpr]
      · rfl
      · intro x hx
        simp only [decide_eq_false_iff_not]
        intro hxc
        subst hxc
        rcases List.mem_cons.mp hx with h1 | h1
        · exact absurd h1.symm (by decide)
        · rw [hfe, List.append_nil] at h1
          exact hLhash h1
    rw [hh]
    dsimp only
    have htake : r.take r.length = base ++ '?' :: J := by
      rw [List.take_length, hr, hfe, List.append_nil]
    rw [hquery r.length htake]
    by_cases hje : J = []
    · rw [if_pos hje]
    · rw [if_neg hje]
      have hLne : L ≠ [] := by
        intro h0
        rw [h0] at hJ
        simp [joinChar] at hJ
        exact hje hJ
      rw [hJ, splitOnChar_joinChar '&' L hLne hLfree]
      have hany : (L.any fun p => keys.contains (pairKey p)) = false := by
        rw [List.any_eq_false]
        intro p hp
        rw [hLkeys p hp]
        simp
      rw [hany]
      simp
  · -- fragment starts with '#'
    subst hfc
    have hh : idxOfFrom r '#' base.length =
        some (base.length + (J.length + 1)) := by
      unfold idxOfFrom
      have hdrop : r.drop base.length = ('?' :: J) ++ '#' :: frest := by
        rw [List.drop_left base _]
        simp
      rw [hdrop, fIdx_append_first _ _ _ (by
        intro hx
        rcases List.mem_cons.mp hx with h1 | h1
        · exact absurd h1.symm (by decide)
        · exact hLhash h1)]
      simp [Nat.add_comm]
    rw [hh]
    dsimp only
    have htake : r.take (base.length + (J.length + 1)) = base ++ '?' :: J := by
      have : r = (base ++ '?' :: J) ++ '#' :: frest := by rw [hr]; simp
      rw [this, List.take_left' (by simp [Nat.add_comm, Nat.add_assoc])]
    rw [hquery _ htake]
    have hdropfrag : r.drop (base.length + (J.length + 1)) = '#' :: frest := by
      have : r = (base ++ '?' :: J) ++ '#' :: frest := by rw [hr]; simp
      rw [this, List.drop_left' (by simp [Nat.add_comm, Nat.add_assoc])]
    rw [hdropfrag]
    by_cases hje : J = []
    · rw [if_pos hje]
    · rw [if_neg hje]
      have hLne : L ≠ [] := by
        intro h0
        rw [h0] at hJ
        simp [joinChar] at hJ
        exact hje hJ
      rw [hJ, splitOnChar_joinChar '&' L hLne hLfree]
      have hany : (L.any fun p => keys.contains (pairKey p)) = false := by
        rw [List.any_eq_false]
        intro p hp
        rw [hLkeys p hp]
        simp
      rw [hany]
      simp


/-- The amendment's side condition: no `?` occurs after the first `#`. -/
def noQueryAfterHash (u : Str) : Bool :=
  match idxOfFrom u '#' 0 with
  | none => true
  | some hp => decide ('?' ∉ u.drop hp)

theorem rqp_eq (u : Str) (keys : List Str) (qPos : Nat)
    (hq : idxOfFrom u '?' 0 = some qPos) (F : Str) (E : Nat)
    (hFE : (idxOfFrom u '#' qPos = none ∧ F = [] ∧ E = u.length) ∨
      (idxOfFrom u '#' qPos = some E ∧ F = u.drop E)) :
    removeQueryParams u keys =
      (if (u.take E).drop (qPos + 1) = [] then u
       else
         if ¬ (splitOnChar '&' ((u.take E).drop (qPos + 1))).any
             (fun p => keys.contains (pairKey p)) then u
         else
           if (splitOnChar '&' ((u.take E).drop (qPos + 1))).filter
               (fun p => ¬ keys.contains (pairKey p)) = [] then
             u.take qPos ++ F
           else
             u.take qPos ++ ['?'] ++
               joinChar '&' ((splitOnChar '&' ((u.take E).drop (qPos + 1))).filter
                 (fun p => ¬ keys.contains (pairKey p))) ++ F) := by
  unfold removeQueryParams
  rw [hq]
  dsimp only
  rcases hFE with ⟨hh, hF, hE⟩ | ⟨hh, hF⟩
  · rw [hh]
    dsimp only
    subst hF
    subst hE
    rfl
  · rw [hh]
    dsimp only
    subst hF
    rfl

/-- C9 (amended): applying removeparam sanitization twice equals applying
it once, for every URL in which no `?` occurs after the first `#` (when
the fragment contains a `?`, a second pass treats the fragment tail as a
query and strips it again; see `c9_counterexample`). -/
theorem c9_removeparam_idempotent_amended (u : Str) (keys : List Str)
    (hcond : noQueryAfterHash u = true) :
    removeQueryParams (removeQueryParams u keys) keys =
      removeQueryParams u keys := by
  rcases hq : idxOfFrom u '?' 0 with _ | qPos
  · rw [removeQueryParams_no_q u keys hq, removeQueryParams_no_q u keys hq]
  · obtain ⟨hbfree, hblen, hdecomp⟩ := idxOfFrom_decomp u '?' qPos hq
    -- relate the first '#' after qPos to the global first '#'
    rcases hg : idxOfFrom u '#' 0 with _ | g
    · -- no '#' anywhere in u
      have hnohash : '#' ∉ u := (idxOfFrom_none_iff u '#').mp hg
      have hh : idxOfFrom u '#' qPos = none := idxOfFrom_from_none u '#' qPos hg
      have hfu := rqp_eq u keys qPos hq [] u.length (Or.inl ⟨hh, rfl, rfl⟩)
      rw [List.take_length] at hfu
      have hQchars : ∀ x ∈ u.drop (qPos + 1), x ∈ u :=
        fun x hx => List.mem_of_mem_drop hx
      by_cases hqe : u.drop (qPos + 1) = []
      · rw [if_pos hqe] at hfu
        rw [hfu]
        exact hfu
      · rw [if_neg hqe] at hfu
        by_cases hch : (splitOnChar '&' (u.drop (qPos + 1))).any
            (fun p => keys.contains (pairKey p)) = true
        · rw [if_neg (not_not_intro hch)] at hfu
          by_cases hke : (splitOnChar '&' (u.drop (qPos + 1))).filter
              (fun p => ¬ keys.contains (pairKey p)) = []
          · rw [if_pos hke] at hfu
            rw [hfu, List.append_nil]
            apply removeQueryParams_no_q
            rw [idxOfFrom_none_iff]
            intro hm
            exact hbfree hm
          · rw [if_neg hke] at hfu
            rw [hfu]
            have hassoc : u.take qPos ++ ['?'] ++
                joinChar '&' ((splitOnChar '&' (u.drop (qPos + 1))).filter
                  (fun p => ¬ keys.contains (pairKey p))) ++ [] =
                u.take qPos ++ '?' ::
                  (joinChar '&' ((splitOnChar '&' (u.drop (qPos + 1))).filter
                    (fun p => ¬ keys.contains (pairKey p))) ++ []) := by
              simp
            rw [hassoc]
            apply removeQueryParams_fixed
            · exact hbfree
            · intro p hp
              exact splitOnChar_sep_free '&' _ p (List.mem_of_mem_filter hp)
            · intro p hp
              have := List.of_mem_filter hp
              simpa using this
            · intro hm
              rcases joinChar_chars '&' _ '#' hm with h1 | ⟨p, hp, hxp⟩
              · exact absurd h1 (by decide)
              · exact hnohash (hQchars '#'
                  (splitOnChar_chars '&' _ p (List.mem_of_mem_filter hp) '#' hxp))
            · exact Or.inl rfl
        · rw [if_pos hch] at hfu
          rw [hfu]
          exact hfu
    · -- u has a '#': it must lie at or after qPos
      have hge : qPos ≤ g := by
        by_contra hlt
        push_neg at hlt
        have hfq : '?' ∈ u.drop g := by
          have hd : u.drop g = (u.take qPos).drop g ++ '?' :: u.drop (qPos + 1) := by
            conv_lhs => rw [hdecomp]
            rw [List.drop_append_of_le_length (by rw [hblen]; omega)]
          rw [hd]
          exact List.mem_append.mpr (Or.inr (List.mem_cons_self _ _))
        unfold noQueryAfterHash at hcond
        rw [hg] at hcond
        simp only [decide_eq_true_eq] at hcond
        exact hcond hfq
      have hh : idxOfFrom u '#' qPos = some g := idxOfFrom_from_ge u '#' g qPos hg hge
      have hfragq : '?' ∉ u.drop g := by
        unfold noQueryAfterHash at hcond
        rw [hg] at hcond
        simpa using hcond
      obtain ⟨hgfree, hglen, hgdecomp⟩ := idxOfFrom_decomp u '#' g hg
      have hfragform : u.drop g = '#' :: u.drop (g + 1) := by
        conv_lhs => rw [hgdecomp]
        rw [List.drop_left' hglen]
      have hQchars : ∀ x ∈ (u.take g).drop (qPos + 1), x ∈ u.take g :=
        fun x hx => List.mem_of_mem_drop hx
      have hfu := rqp_eq u keys qPos hq (u.drop g) g (Or.inr ⟨hh, rfl⟩)
      by_cases hqe : (u.take g).drop (qPos + 1) = []
      · rw [if_pos hqe] at hfu
        rw [hfu]
        exact hfu
      · rw [if_neg hqe] at hfu
        by_cases hch : (splitOnChar '&' ((u.take g).drop (qPos + 1))).any
            (fun p => keys.contains (pairKey p)) = true
        · rw [if_neg (not_not_intro hch)] at hfu
          by_cases hke : (splitOnChar '&' ((u.take g).drop (qPos + 1))).filter
              (fun p => ¬ keys.contains (pairKey p)) = []
          · rw [if_pos hke] at hfu
            rw [hfu]
            apply removeQueryParams_no_q
            rw [idxOfFrom_none_iff]
            intro hm
            rcases List.mem_append.mp hm with hm | hm
            · exact hbfree hm
            · exact hfragq hm
          · rw [if_neg hke] at hfu
            rw [hfu]
            have hassoc : u.take qPos ++ ['?'] ++
                joinChar '&' ((splitOnChar '&' ((u.take g).drop (qPos + 1))).filter
                  (fun p => ¬ keys.contains (pairKey p))) ++ u.drop g =
                u.take qPos ++ '?' ::
                  (joinChar '&' ((splitOnChar '&' ((u.take g).drop (qPos + 1))).filter
                    (fun p => ¬ keys.contains (pairKey p))) ++ u.drop g) := by
              simp
            rw [hassoc]
            apply removeQueryParams_fixed
            · exact hbfree
            · intro p hp
              exact splitOnChar_sep_free '&' _ p (List.mem_of_mem_filter hp)
            · intro p hp
              have := List.of_mem_filter hp
              simpa using this
            · intro hm
              rcases joinChar_chars '&' _ '#' hm with h1 | ⟨p, hp, hxp⟩
              · exact absurd h1 (by decide)
              · exact hgfree (hQchars '#'
                  (splitOnChar_chars '&' _ p (List.mem_of_mem_filter hp) '#' hxp))
            · exact Or.inr ⟨u.drop (g + 1), hfragform⟩
        · rw [if_pos hch] at hfu
          rw [hfu]
          exact hfu

def urlC9w : Str := S "https://shop.example.com/p?gclid=abc&x=1"

theorem c9_removeparam_idempotent_amended_witness :
    noQueryAfterHash urlC9w = true ∧
    removeQueryParams urlC9w [S "gclid"] = S "https://shop.example.com/p?x=1" ∧
    removeQueryParams (removeQueryParams urlC9w [S "gclid"]) [S "gclid"] =
      removeQueryParams urlC9w [S "gclid"] :=
  ⟨by decide, by decide,
    c9_removeparam_idempotent_amended urlC9w [S "gclid"] (by decide)⟩


-- ===========================================================================
-- C8: eTLD+1 stability and idempotence (amended)
-- ===========================================================================

theorem char_toNat_ofNat (n : Nat) (h : n.isValidChar) :
    (Char.ofNat n).toNat = n := by
  simp only [Char.ofNat, h, dif_pos, Char.ofNatAux, Char.toNat]
  rfl

theorem char_le_iff (c d : Char) : c ≤ d ↔ c.toNat ≤ d.toNat := by
  rw [Char.le_def]
  rfl

theorem jsLowerChar_idem (c : Char) :
    jsLowerChar (jsLowerChar c) = jsLowerChar c := by
  unfold jsLowerChar
  by_cases h : 'A' ≤ c ∧ c ≤ 'Z'
  · rw [if_pos h, if_neg]
    rintro ⟨-, h2⟩
    rcases h with ⟨ha, hz⟩
    rw [char_le_iff] at ha hz h2
    have hv : (c.toNat + 32).isValidChar := by
      left
      have : c.toNat ≤ 90 := hz
      omega
    rw [char_toNat_ofNat _ hv] at h2
    have : 65 ≤ c.toNat := ha
    have : c.toNat + 32 ≤ 90 := h2
    omega
  · rw [if_neg h, if_neg h]

theorem jsToLower_fix {s : Str} (hfix : ∀ x ∈ s, jsLowerChar x = x) :
    jsToLower s = s := by
  unfold jsToLower
  calc s.map jsLowerChar = s.map id := List.map_congr_left hfix
    _ = s := List.map_id s

theorem mem_jsToLower_fix {s : Str} {x : Char} (hx : x ∈ jsToLower s) :
    jsLowerChar x = x := by
  unfold jsToLower at hx
  rcases List.mem_map.mp hx with ⟨y, -, rfl⟩
  exact jsLowerChar_idem y

theorem mem_stripTrailingDot {s : Str} {x : Char}
    (hx : x ∈ stripTrailingDot s) : x ∈ s := by
  unfold stripTrailingDot at hx
  split at hx
  · exact (List.dropLast_sublist s).subset hx
  · exact hx

theorem strip_fix_last {s : Str} (h : stripTrailingDot s = s) :
    s.getLast? ≠ some '.' := by
  intro hl
  unfold stripTrailingDot at h
  rw [if_pos hl] at h
  have hne : s ≠ [] := by
    intro h0
    rw [h0] at hl
    simp at hl
  have h1 : s.dropLast.length = s.length - 1 := List.length_dropLast s
  have h2 : 0 < s.length := List.length_pos.mpr hne
  rw [h] at h1
  omega

theorem getLast?_cons_ne {α} (a : α) (l : List α) (hl : l ≠ []) :
    (a :: l).getLast? = l.getLast? := by
  rcases l with _ | ⟨b, t⟩
  · exact absurd rfl hl
  · exact List.getLast?_cons_cons

theorem splitOnChar_last_ne (c : Char) (s : Str) (hs : s ≠ [])
    (hl : s.getLast? ≠ some c) : (splitOnChar c s).getLast? ≠ some [] := by
  induction s with
  | nil => exact absurd rfl hs
  | cons x xs ih =>
    rw [splitOnChar_cons]
    by_cases hx : x = c
    · subst hx
      rw [if_pos rfl]
      have hxs : xs ≠ [] := by
        intro h0
        subst h0
        simp at hl
      rw [getLast?_cons_ne _ _ (splitOnChar_ne_nil x xs)]
      exact ih hxs (by rwa [getLast?_cons_ne x xs hxs] at hl)
    · rw [if_neg hx]
      rcases hr : splitOnChar c xs with _ | ⟨h, t⟩
      · exact absurd hr (splitOnChar_ne_nil c xs)
      · rcases t with _ | ⟨u, us⟩
        · simp
        · rw [List.getLast?_cons_cons]
          have hxs : xs ≠ [] := by
            intro h0
            subst h0
            simp [splitOnChar] at hr
          have := ih hxs (by rwa [getLast?_cons_ne x xs hxs] at hl)
          rwa [hr, List.getLast?_cons_cons] at this

theorem joinChar_getLast? (c : Char) :
    ∀ (L : List Str) (lp : Str), L.getLast? = some lp → lp ≠ [] →
      (joinChar c L).getLast? = lp.getLast?
  | [], lp, h, _ => by simp at h
  | [x], lp, h, _ => by
    simp only [List.getLast?_singleton, Option.some_inj] at h
    subst h
    rw [joinChar_single]
  | x :: y :: rest, lp, h, hne => by
    rw [List.getLast?_cons_cons] at h
    have ihp := joinChar_getLast? c (y :: rest) lp h hne
    rw [joinChar_cons₂, List.getLast?_append]
    rcases hJ : joinChar c (y :: rest) with _ | ⟨j, js⟩
    · rw [hJ] at ihp
      have : lp.getLast?.isSome := List.getLast?_isSome.mpr hne
      rw [← ihp] at this
      simp at this
    · rw [hJ] at ihp
      rw [getLast?_cons_ne c (j :: js) (List.cons_ne_nil j js), ihp]
      have : lp.getLast?.isSome := List.getLast?_isSome.mpr hne
      rcases hlv : lp.getLast? with _ | v

      · rw [hlv] at this
        simp at this
      · rfl

theorem joinChar_splitOnChar (c : Char) (s : Str) :
    joinChar c (splitOnChar c s) = s := by
  induction s with
  | nil => rfl
  | cons x xs ih =>
    rw [splitOnChar_cons]
    by_cases hx : x = c
    · subst hx
      rw [if_pos rfl]
      rcases hr : splitOnChar x xs with _ | ⟨h, t⟩
      · exact absurd hr (splitOnChar_ne_nil x xs)
      · rw [joinChar_cons₂, List.nil_append, ← hr, ih]
    · rw [if_neg hx]
      rcases hr : splitOnChar c xs with _ | ⟨h, t⟩
      · exact absurd hr (splitOnChar_ne_nil c xs)
      · rcases t with _ | ⟨u, us⟩
        · rw [joinChar_single]
          rw [hr, joinChar_single] at ih
          rw [ih]
        · rw [joinChar_cons₂]
          rw [hr, joinChar_cons₂] at ih
          rw [List.cons_append, ih]

/-- Invariant of the label list produced by `splitHost` on a normalized
host: every label is dot-free and lowercase-fixed, the list is non-empty
and its last label is non-empty. -/
def goodL (L : List Str) : Prop :=
  (∀ p ∈ L, '.' ∉ p) ∧ (∀ p ∈ L, ∀ x ∈ p, jsLowerChar x = x) ∧
    L ≠ [] ∧ L.getLast? ≠ some []

theorem goodL_drop (L : List Str) (i : Nat) (hi : i < L.length)
    (hg : goodL L) : goodL (L.drop i) := by
  obtain ⟨hfree, hlower, _, hlast⟩ := hg
  refine ⟨fun p hp => hfree p (List.mem_of_mem_drop hp),
          fun p hp => hlower p (List.mem_of_mem_drop hp), ?_, ?_⟩
  · intro hnil
    have := List.length_drop i L
    rw [hnil] at this
    simp at this
    omega
  · rw [List.getLast?_drop, if_neg (by omega)]
    exact hlast

theorem joinChar_not_dot_last (L : List Str) (hg : goodL L) :
    (joinChar '.' L).getLast? ≠ some '.' := by
  obtain ⟨hfree, -, hne, hlast⟩ := hg
  rcases hlv : L.getLast? with _ | lp
  · exact absurd (List.getLast?_isSome.mpr hne) (by rw [hlv]; simp)
  · have hlp : lp ≠ [] := fun h0 => hlast (h0 ▸ hlv)
    rw [joinChar_getLast? '.' L lp hlv hlp]
    rcases hlpl : lp.getLast? with _ | d
    · exact absurd (List.getLast?_isSome.mpr hlp) (by rw [hlpl]; simp)
    · have hd : d ∈ lp := List.mem_of_mem_getLast? hlpl
      have : d ≠ '.' := fun h => hfree lp (List.mem_of_mem_getLast? hlv) (h ▸ hd)
      simp [this]

/-- `splitHost` is a left inverse of dot-joining on good label lists. -/
theorem splitHost_joinChar (L : List Str) (hg : goodL L) :
    splitHost (joinChar '.' L) = L := by
  unfold splitHost
  have h1 : stripTrailingDot (joinChar '.' L) = joinChar '.' L := by
    unfold stripTrailingDot
    rw [if_neg (joinChar_not_dot_last L hg)]
  rw [h1]
  have h2 : jsToLower (joinChar '.' L) = joinChar '.' L := by
    apply jsToLower_fix
    intro x hx
    rcases joinChar_chars '.' L x hx with rfl | ⟨p, hp, hxp⟩
    · decide
    · exact hg.2.1 p hp x hxp
  rw [h2]
  exact splitOnChar_joinChar '.' L hg.2.2.1 hg.1

/-- The dot-joined suffix of the label list from index `i`, as the
`computeETLD1` loop forms it. -/
def sfx (L : List Str) (i : Nat) : Str := joinChar '.' (L.drop i)

theorem sfx_drop (L : List Str) (m t : Nat) :
    sfx (L.drop m) t = sfx L (m + t) := by
  unfold sfx
  rw [List.drop_drop]

/-- One of the three PSL branch tests of the `computeETLD1` loop fires
at index `i`. -/
def hitAt (psl : Option PSLSets) (L : List Str) (i : Nat) : Prop :=
  isExceptionRule psl (sfx L i) = true ∨ isExactRule psl (sfx L i) = true ∨
    (sfx L (i + 1) ≠ [] ∧ isWildcardRule psl (sfx L (i + 1)) = true)

theorem hitAt_none (L : List Str) (k : Nat) : ¬ hitAt none L k := by
  unfold hitAt isExceptionRule isExactRule isWildcardRule
  simp

theorem hitAt_drop (psl : Option PSLSets) (L : List Str) (m t : Nat) :
    hitAt psl (L.drop m) t ↔ hitAt psl L (m + t) := by
  unfold hitAt
  rw [sfx_drop, sfx_drop, Nat.add_assoc]

theorem etldLoopF_zero (psl : Option PSLSets) (L : List Str) (host : Str)
    (i : Nat) : etldLoopF psl L host i 0 = fallbackETLD1 L := rfl

theorem etldLoopF_succ (psl : Option PSLSets) (L : List Str) (host : Str)
    (i fuel : Nat) :
    etldLoopF psl L host i (fuel + 1) =
      if i < L.length - 1 then
        if isExceptionRule psl (sfx L i) then
          (if i > 0 then sfx L (i - 1) else sfx L i)
        else if isExactRule psl (sfx L i) then
          (if i > 0 then sfx L (i - 1) else host)
        else if sfx L (i + 1) ≠ [] ∧ isWildcardRule psl (sfx L (i + 1)) then
          (if i > 0 then sfx L (i - 1) else sfx L i)
        else etldLoopF psl L host (i + 1) fuel
      else fallbackETLD1 L := rfl

theorem etldLoopF_all_miss (psl : Option PSLSets) (M : List Str) (r : Str) :
    ∀ fuel i, (∀ k, i ≤ k → k < M.length - 1 → ¬ hitAt psl M k) →
      etldLoopF psl M r i fuel = fallbackETLD1 M := by
  intro fuel
  induction fuel with
  | zero => intro i _; rfl
  | succ fuel ih =>
    intro i h
    rw [etldLoopF_succ]
    by_cases hi : i < M.length - 1
    · rw [if_pos hi]
      have hnh := h i le_rfl hi
      rw [if_neg (fun he => hnh (Or.inl he)),
          if_neg (fun he => hnh (Or.inr (Or.inl he))),
          if_neg (fun hw => hnh (Or.inr (Or.inr hw)))]
      exact ih (i + 1) (fun k hk1 hk2 => h k (by omega) hk2)
    · rw [if_neg hi]

/-- Slices of a good label list re-normalize to themselves. -/
theorem join_slice_norm (L : List Str) (m : Nat) (hm : m < L.length)
    (hg : goodL L) :
    stripTrailingDot (jsToLower (sfx L m)) = sfx L m := by
  have hgm := goodL_drop L m hm hg
  unfold sfx
  have hlow : jsToLower (joinChar '.' (L.drop m)) = joinChar '.' (L.drop m) := by
    apply jsToLower_fix
    intro x hx
    rcases joinChar_chars '.' (L.drop m) x hx with rfl | ⟨p, hp, hxp⟩
    · decide
    · exact hg.2.1 p (List.mem_of_mem_drop hp) x hxp
  rw [hlow]
  unfold stripTrailingDot
  rw [if_neg (joinChar_not_dot_last _ hgm)]

/-- If no PSL rule fires anywhere in a suffix slice and `fallbackETLD1`
reproduces the slice, the joined slice is a fixed point of
`computeETLD1`. -/
theorem compute_on_slice (psl : Option PSLSets) (L : List Str) (m : Nat)
    (hg : goodL L) (hm2 : m + 2 ≤ L.length)
    (hno : ∀ k, m ≤ k → k < L.length - 1 → ¬ hitAt psl L k)
    (hfb : fallbackETLD1 (L.drop m) = sfx L m) :
    computeETLD1 psl (sfx L m) = sfx L m := by
  have hgm := goodL_drop L m (by omega) hg
  have hM : splitHost (sfx L m) = L.drop m := splitHost_joinChar (L.drop m) hgm
  unfold computeETLD1
  simp only []
  rw [hM, if_neg (by rw [List.length_drop]; omega)]
  rcases psl with _ | p
  · exact hfb
  · unfold etldLoop
    have hmiss : ∀ k, 0 ≤ k → k < (L.drop m).length - 1 →
        ¬ hitAt (some p) (L.drop m) k := by
      intro k _ hk
      rw [hitAt_drop]
      rw [List.length_drop] at hk
      exact hno (m + k) (by omega) (by omega)
    rw [etldLoopF_all_miss (some p) (L.drop m) (sfx L m) _ 0 hmiss]
    exact hfb

/-- When no PSL rule fires before the loop guard fails, the fallback
result is itself a fixed point of normalization and `computeETLD1`. -/
theorem etld_fallback_self (psl : Option PSLSets) (L : List Str) (h' : Str)
    (hg : goodL L) (hn : 2 ≤ L.length)
    (hstrip : stripTrailingDot h' = h') (hlow : jsToLower h' = h')
    (hjoin : joinChar '.' L = h')
    (hno : ∀ k, k < L.length - 1 → ¬ hitAt psl L k) :
    stripTrailingDot (jsToLower (fallbackETLD1 L)) = fallbackETLD1 L ∧
      computeETLD1 psl (fallbackETLD1 L) = fallbackETLD1 L := by
  have hL0 : sfx L 0 = h' := by
    unfold sfx
    rw [List.drop_zero, hjoin]
  unfold fallbackETLD1
  simp only []
  by_cases h2 : L.length ≤ 2
  · rw [if_pos h2]
    have hfb : fallbackETLD1 (L.drop 0) = sfx L 0 := by
      rw [List.drop_zero]
      unfold fallbackETLD1
      simp only []
      rw [if_pos h2, hL0, hjoin]
    have hcomp := compute_on_slice psl L 0 hg (by omega)
      (fun k _ hk => hno k hk) hfb
    rw [hL0] at hcomp
    rw [hjoin]
    exact ⟨by rw [hlow, hstrip], hcomp⟩
  · rw [if_neg h2]
    by_cases hcom :
        commonTwoPartTLDs.contains (joinChar '.' (L.drop (L.length - 2)))
    · rw [if_pos hcom]
      constructor
      · show stripTrailingDot (jsToLower (sfx L (L.length - 3))) =
          sfx L (L.length - 3)
        exact join_slice_norm L (L.length - 3) (by omega) hg
      · show computeETLD1 psl (sfx L (L.length - 3)) = sfx L (L.length - 3)
        apply compute_on_slice psl L (L.length - 3) hg (by omega)
          (fun k _ hk => hno k hk)
        unfold fallbackETLD1
        simp only [List.length_drop]
        rw [show L.length - (L.length - 3) = 3 from by omega]
        rw [if_neg (by omega)]
        simp only [show (3 : Nat) - 2 = 1 from rfl,
          show (3 : Nat) - 3 = 0 from rfl, List.drop_drop]
        rw [show L.length - 3 + 1 = L.length - 2 from by omega]
        rw [if_pos hcom]
        rw [show L.length - 3 + 0 = L.length - 3 from by omega]
        rfl
    · rw [if_neg hcom]
      constructor
      · show stripTrailingDot (jsToLower (sfx L (L.length - 2))) =
          sfx L (L.length - 2)
        exact join_slice_norm L (L.length - 2) (by omega) hg
      · show computeETLD1 psl (sfx L (L.length - 2)) = sfx L (L.length - 2)
        apply compute_on_slice psl L (L.length - 2) hg (by omega)
          (fun k _ hk => hno k hk)
        unfold fallbackETLD1
        simp only [List.length_drop]
        rw [show L.length - (L.length - 2) = 2 from by omega]
        rw [if_pos (by omega)]
        rfl

/-- When a PSL rule fires at index 0 of the loop, the loop returns the
whole (already-registrable) host, which is thus a fixed point. -/
theorem etld_hit0_self (psl : Option PSLSets) (L : List Str) (h' : Str)
    (hn : 2 ≤ L.length) (hL : splitHost h' = L)
    (hjoin : joinChar '.' L = h') (hhit : hitAt psl L 0) :
    computeETLD1 psl h' = h' := by
  have hL0 : sfx L 0 = h' := by
    unfold sfx
    rw [List.drop_zero, hjoin]
  rcases psl with _ | p
  · exact absurd hhit (hitAt_none L 0)
  unfold computeETLD1
  simp only []
  rw [hL, if_neg (by omega)]
  unfold etldLoop
  rw [show L.length - 1 - 0 = (L.length - 2) + 1 from by omega]
  rw [etldLoopF_succ, if_pos (by omega)]
  by_cases hexc : isExceptionRule (some p) (sfx L 0) = true
  · rw [if_pos hexc, if_neg (lt_irrefl 0)]
    exact hL0
  · rw [if_neg hexc]
    by_cases hexa : isExactRule (some p) (sfx L 0) = true
    · rw [if_pos hexa, if_neg (lt_irrefl 0)]
    · rw [if_neg hexa]
      have hw : sfx L (0 + 1) ≠ [] ∧
          isWildcardRule (some p) (sfx L (0 + 1)) = true := by
        rcases hhit with h | h | h
        · exact absurd h hexc
        · exact absurd h hexa
        · exact h
      rw [if_pos hw, if_neg (lt_irrefl 0)]
      exact hL0

/-- When the first PSL rule fires at index `i ≥ 1`, the loop returns the
suffix one label wider, and that suffix is a fixed point of
normalization and of `computeETLD1`. -/
theorem etld_hit_self (psl : Option PSLSets) (L : List Str) (i : Nat)
    (hg : goodL L) (hpos : 0 < i) (hi : i < L.length - 1)
    (hprev : ¬ hitAt psl L (i - 1)) (hhit : hitAt psl L i) :
    stripTrailingDot (jsToLower (sfx L (i - 1))) = sfx L (i - 1) ∧
      computeETLD1 psl (sfx L (i - 1)) = sfx L (i - 1) := by
  obtain ⟨j, rfl⟩ : ∃ j, i = j + 1 := ⟨i - 1, by omega⟩
  simp only [Nat.add_sub_cancel] at hprev ⊢
  constructor
  · exact join_slice_norm L j (by omega) hg
  · rcases psl with _ | p
    · exact absurd hhit (hitAt_none L (j + 1))
    have hgm := goodL_drop L j (by omega) hg
    have hM : splitHost (sfx L j) = L.drop j := splitHost_joinChar (L.drop j) hgm
    have e0 : sfx (L.drop j) 0 = sfx L j := by
      rw [sfx_drop, Nat.add_zero]
    have e1 : sfx (L.drop j) (0 + 1) = sfx L (j + 1) := by
      rw [sfx_drop]
    have e2 : sfx (L.drop j) (0 + 1 + 1) = sfx L (j + 1 + 1) := by
      rw [sfx_drop]
    unfold computeETLD1
    simp only []
    rw [hM, if_neg (by rw [List.length_drop]; omega)]
    unfold etldLoop
    rw [show (L.drop j).length - 1 - 0 = (L.length - j - 3) + 1 + 1 from by
      rw [List.length_drop]; omega]
    rw [etldLoopF_succ, if_pos (by rw [List.length_drop]; omega)]
    rw [e0, e1]
    rw [if_neg (fun h => hprev (Or.inl h)),
        if_neg (fun h => hprev (Or.inr (Or.inl h))),
        if_neg (fun h => hprev (Or.inr (Or.inr h)))]
    rw [etldLoopF_succ, if_pos (by rw [List.length_drop]; omega)]
    rw [e1, e2]
    by_cases hexc1 : isExceptionRule (some p) (sfx L (j + 1)) = true
    · rw [if_pos hexc1, if_pos (by norm_num : (0 : Nat) + 1 > 0)]
      rw [show (0 : Nat) + 1 - 1 = 0 from by norm_num, e0]
    · rw [if_neg hexc1]
      by_cases hexa1 : isExactRule (some p) (sfx L (j + 1)) = true
      · rw [if_pos hexa1, if_pos (by norm_num : (0 : Nat) + 1 > 0)]
        rw [show (0 : Nat) + 1 - 1 = 0 from by norm_num, e0]
      · rw [if_neg hexa1]
        have hw : sfx L (j + 1 + 1) ≠ [] ∧
            isWildcardRule (some p) (sfx L (j + 1 + 1)) = true := by
          rcases hhit with h | h | h
          · exact absurd h hexc1
          · exact absurd h hexa1
          · exact h
        rw [if_pos hw, if_pos (by norm_num : (0 : Nat) + 1 > 0)]
        rw [show (0 : Nat) + 1 - 1 = 0 from by norm_num, e0]

/-- Main loop invariant: if no PSL rule fired below index `i`, the value
the loop returns from index `i` is a fixed point of normalization and of
`computeETLD1` itself. -/
theorem etldLoopF_self (psl : Option PSLSets) (L : List Str) (h' : Str)
    (hg : goodL L) (hn : 2 ≤ L.length) (hL : splitHost h' = L)
    (hstrip : stripTrailingDot h' = h') (hlow : jsToLower h' = h')
    (hjoin : joinChar '.' L = h') :
    ∀ fuel i, fuel = L.length - 1 - i →
      (∀ k, k < i → ¬ hitAt psl L k) →
      stripTrailingDot (jsToLower (etldLoopF psl L h' i fuel)) =
          etldLoopF psl L h' i fuel ∧
        computeETLD1 psl (etldLoopF psl L h' i fuel) =
          etldLoopF psl L h' i fuel := by
  intro fuel
  induction fuel with
  | zero =>
    intro i hf hprev
    rw [etldLoopF_zero]
    exact etld_fallback_self psl L h' hg hn hstrip hlow hjoin
      (fun k hk => hprev k (by omega))
  | succ fuel ih =>
    intro i hf hprev
    rw [etldLoopF_succ, if_pos (by omega)]
    have hL0 : sfx L 0 = h' := by
      unfold sfx
      rw [List.drop_zero, hjoin]
    by_cases hexc : isExceptionRule psl (sfx L i) = true
    · rw [if_pos hexc]
      rcases Nat.eq_zero_or_pos i with rfl | hpos
      · rw [if_neg (lt_irrefl 0), hL0]
        exact ⟨by rw [hlow, hstrip],
          etld_hit0_self psl L h' hn hL hjoin (Or.inl hexc)⟩
      · rw [if_pos hpos]
        exact etld_hit_self psl L i hg hpos (by omega)
          (hprev (i - 1) (by omega)) (Or.inl hexc)
    · rw [if_neg hexc]
      by_cases hexa : isExactRule psl (sfx L i) = true
      · rw [if_pos hexa]
        rcases Nat.eq_zero_or_pos i with rfl | hpos
        · rw [if_neg (lt_irrefl 0)]
          exact ⟨by rw [hlow, hstrip],
            etld_hit0_self psl L h' hn hL hjoin (Or.inr (Or.inl hexa))⟩
        · rw [if_pos hpos]
          exact etld_hit_self psl L i hg hpos (by omega)
            (hprev (i - 1) (by omega)) (Or.inr (Or.inl hexa))
      · rw [if_neg hexa]
        by_cases hw : sfx L (i + 1) ≠ [] ∧ isWildcardRule psl (sfx L (i + 1)) = true
        · rw [if_pos hw]
          rcases Nat.eq_zero_or_pos i with rfl | hpos
          · rw [if_neg (lt_irrefl 0), hL0]
            exact ⟨by rw [hlow, hstrip],
              etld_hit0_self psl L h' hn hL hjoin (Or.inr (Or.inr hw))⟩
          · rw [if_pos hpos]
            exact etld_hit_self psl L i hg hpos (by omega)
              (hprev (i - 1) (by omega)) (Or.inr (Or.inr hw))
        · rw [if_neg hw]
          refine ih (i + 1) (by omega) (fun k hk => ?_)
          rcases Nat.lt_succ_iff_lt_or_eq.mp hk with h | rfl
          · exact hprev k h
          · rintro (h | h | h)
            · exact hexc h
            · exact hexa h
            · exact hw h

/-- The value of `computeETLD1` on a normalized host is itself a fixed
point of normalization and of `computeETLD1`. -/
theorem computeETLD1_self (psl : Option PSLSets) (h' : Str)
    (hstrip : stripTrailingDot h' = h') (hlow : jsToLower h' = h') :
    stripTrailingDot (jsToLower (computeETLD1 psl h')) = computeETLD1 psl h' ∧
      computeETLD1 psl (computeETLD1 psl h') = computeETLD1 psl h' := by
  have hL : splitHost h' = splitOnChar '.' h' := by
    unfold splitHost
    rw [hstrip, hlow]
  by_cases h1 : (splitOnChar '.' h').length ≤ 1
  · have hres : computeETLD1 psl h' = h' := by
      unfold computeETLD1
      simp only []
      rw [hL, if_pos h1]
    rw [hres]
    exact ⟨by rw [hlow, hstrip], hres⟩
  · have hn : 2 ≤ (splitOnChar '.' h').length := by omega
    have hjoin : joinChar '.' (splitOnChar '.' h') = h' := joinChar_splitOnChar '.' h'
    have hne' : h' ≠ [] := by
      intro h0
      rw [h0] at h1
      simp [splitOnChar] at h1
    have hfixchars : ∀ x ∈ h', jsLowerChar x = x := by
      intro x hx
      rw [← hlow] at hx
      exact mem_jsToLower_fix hx
    have hg : goodL (splitOnChar '.' h') :=
      ⟨splitOnChar_sep_free '.' h',
       fun p hp x hx => hfixchars x (splitOnChar_chars '.' h' p hp x hx),
       splitOnChar_ne_nil '.' h',
       splitOnChar_last_ne '.' h' hne' (strip_fix_last hstrip)⟩
    rcases psl with _ | p
    · have hres : computeETLD1 none h' = fallbackETLD1 (splitOnChar '.' h') := by
        unfold computeETLD1
        simp only []
        rw [hL, if_neg h1]
      rw [hres]
      exact etld_fallback_self none (splitOnChar '.' h') h' hg hn hstrip hlow
        hjoin (fun k _ => hitAt_none (splitOnChar '.' h') k)
    · have hres : computeETLD1 (some p) h' =
          etldLoopF (some p) (splitOnChar '.' h') h' 0
            ((splitOnChar '.' h').length - 1 - 0) := by
        unfold computeETLD1 etldLoop
        simp only []
        rw [hL, if_neg h1]
      rw [hres]
      exact etldLoopF_self (some p) (splitOnChar '.' h') h' hg hn hL hstrip
        hlow hjoin ((splitOnChar '.' h').length - 1 - 0) 0 rfl
        (fun k hk => absurd hk (Nat.not_lt_zero k))

theorem strip_fix_of_last {s : Str} (hd : s.getLast? ≠ some '.') :
    stripTrailingDot s = s := by
  unfold stripTrailingDot
  rw [if_neg hd]

/-- The eTLD+1 cache invariant: every cached value is `computeETLD1` of
its (already normalized) key. -/
def etldCacheOK (psl : Option PSLSets) (c : ETLDCache) : Prop :=
  ∀ p ∈ c, p.2 = computeETLD1 psl p.1

/-- Under the cache invariant, `getETLD1` is value-transparent (it
returns what `computeETLD1` computes on the normalized host) and
preserves the invariant. -/
theorem getETLD1_cacheOK (psl : Option PSLSets) (cache : ETLDCache)
    (host : Str) (hc : etldCacheOK psl cache) :
    (getETLD1 psl cache host).1 = getETLD1pure psl host ∧
      etldCacheOK psl (getETLD1 psl cache host).2 := by
  unfold getETLD1 getETLD1pure cacheGet
  simp only []
  rcases hfind : cache.find?
      (fun p => p.1 = stripTrailingDot (jsToLower host)) with _ | p
  · rw [hfind]
    constructor
    · rfl
    · intro q hq
      simp only [] at hq
      unfold cacheSet at hq
      rw [hfind] at hq
      simp only [Option.isSome_none, Bool.false_eq_true, if_false] at hq
      by_cases hlen : cache.length ≥ 4096
      · rw [if_pos hlen] at hq
        rcases List.mem_append.mp hq with h | h
        · exact hc q (List.drop_subset 1 cache h)
        · rcases List.mem_singleton.mp h with rfl
          rfl
      · rw [if_neg hlen] at hq
        rcases List.mem_append.mp hq with h | h
        · exact hc q h
        · rcases List.mem_singleton.mp h with rfl
          rfl
  · rw [hfind]
    dsimp only []
    have hkey : p.1 = stripTrailingDot (jsToLower host) := by
      have := List.find?_some hfind
      exact of_decide_eq_true this
    have hmem : p ∈ cache := List.mem_of_find?_eq_some hfind
    constructor
    · rw [hc p hmem, hkey]
    · intro q hq
      rcases List.mem_append.mp hq with h | h
      · exact hc q (List.mem_of_mem_filter h)
      · rcases List.mem_singleton.mp h with rfl
        exact hc q hmem

/-- `getETLD1pure` is idempotent on hosts whose normalized form does not
end in a dot. -/
theorem getETLD1pure_idem (psl : Option PSLSets) (host : Str)
    (hd : (stripTrailingDot (jsToLower host)).getLast? ≠ some '.') :
    getETLD1pure psl (getETLD1pure psl host) = getETLD1pure psl host := by
  have hstrip : stripTrailingDot (stripTrailingDot (jsToLower host)) =
      stripTrailingDot (jsToLower host) := strip_fix_of_last hd
  have hlow : jsToLower (stripTrailingDot (jsToLower host)) =
      stripTrailingDot (jsToLower host) := by
    apply jsToLower_fix
    intro x hx
    exact mem_jsToLower_fix (mem_stripTrailingDot hx)
  obtain ⟨ha, hb⟩ := computeETLD1_self psl _ hstrip hlow
  unfold getETLD1pure
  rw [ha, hb]

/-- C8 (amended): provided every cached value is the `computeETLD1` of
its key and the host's normalized form (lowercased, one trailing dot
stripped) does not still end in a dot, `getETLD1` is stable under
repeated calls and idempotent: a second call on the same host returns
the same value, and a call on the returned eTLD+1 returns it
unchanged. -/
theorem c8_etld1_idempotent_amended (psl : Option PSLSets)
    (cache : ETLDCache) (host : Str) (hc : etldCacheOK psl cache)
    (hd : (stripTrailingDot (jsToLower host)).getLast? ≠ some '.') :
    (getETLD1 psl (getETLD1 psl cache host).2 host).1 =
        (getETLD1 psl cache host).1 ∧
      (getETLD1 psl (getETLD1 psl cache host).2
          (getETLD1 psl cache host).1).1 = (getETLD1 psl cache host).1 := by
  obtain ⟨hv1, hc1⟩ := getETLD1_cacheOK psl cache host hc
  obtain ⟨hv2, -⟩ := getETLD1_cacheOK psl (getETLD1 psl cache host).2 host hc1
  obtain ⟨hv3, -⟩ := getETLD1_cacheOK psl (getETLD1 psl cache host).2
    (getETLD1 psl cache host).1 hc1
  refine ⟨by rw [hv1, hv2], ?_⟩
  rw [hv3, hv1]
  exact getETLD1pure_idem psl host hd

/-- C8 witness: the amended theorem applied at the host
`sub.example.com` with no PSL loaded and an empty cache; the computed
eTLD+1 is `example.com` and both stability and idempotence hold. -/
theorem c8_etld1_idempotent_amended_witness :
    (getETLD1 none [] (S "sub.example.com")).1 = S "example.com" ∧
      ((getETLD1 none (getETLD1 none [] (S "sub.example.com")).2
            (S "sub.example.com")).1 =
          (getETLD1 none [] (S "sub.example.com")).1 ∧
        (getETLD1 none (getETLD1 none [] (S "sub.example.com")).2
            (getETLD1 none [] (S "sub.example.com")).1).1 =
          (getETLD1 none [] (S "sub.example.com")).1) :=
  ⟨by decide,
    c8_etld1_idempotent_amended none [] (S "sub.example.com")
      (fun p hp => absurd hp (List.not_mem_nil p)) (by decide)⟩

end BB
